import Mathlib

/-!
# SymCC runtime configuration loader (runtime/Config.cpp)

A shallow embedding of `checkFlagString`, `parse_selective_input_option` and
`loadConfig`, and the properties of the configuration loader proved about them.

Conventions of the embedding

* A C string (what `getenv` returns) is a list of characters, `Str`.  The
  character classes of `<cctype>` are those of the "C" locale, given by byte code.
* `size_t` and `unsigned long` are 64 bits wide; values are naturals and the
  bound `SIZE_MAX = 2^64 - 1` is explicit.
* `std::unordered_set<size_t>` is a `Finset Nat`.
* The process environment is a function from variable names to optional values.
* `g_config` is passed explicitly; a thrown `std::runtime_error` is a value that
  is returned together with the configuration as it stands at the throw.
-/

namespace SymCC

/-- A C string: the characters before the terminating NUL. -/
abbrev Str := List Char

/-! ## Character classes (`<cctype>`, "C" locale) -/

/-- The `isspace` class: space, and the controls `\t \n \v \f \r` (codes 9 to 13). -/
def isspace (c : Char) : Bool :=
  decide (c.toNat = 32 ∨ (9 ≤ c.toNat ∧ c.toNat ≤ 13))

/-- The `isdigit` class: `'0'` to `'9'` (codes 48 to 57). -/
def isdigit (c : Char) : Bool :=
  decide (48 ≤ c.toNat ∧ c.toNat ≤ 57)

/-- The `tolower` map: `'A'..'Z'` (codes 65 to 90) move to `'a'..'z'`, every other
character is left alone. -/
def tolower (c : Char) : Char :=
  if 65 ≤ c.toNat ∧ c.toNat ≤ 90 then Char.ofNat (c.toNat + 32) else c

/-- The `std::transform(value.begin(), value.end(), value.begin(), tolower)` of
`checkFlagString`, line 27. -/
def lowercase (value : Str) : Str :=
  value.map tolower

/-! ## Errors -/

/-- The four places where the loader throws, under the names the specification
gives them. -/
inductive ErrorKind where
  | InvalidFlagValue
  | NoValidOffsets
  | InvalidNumericFormat
  | NumericOutOfRange
  deriving DecidableEq, Repr

/-- A thrown `std::runtime_error`: the throw site and the text of `what()`. -/
structure RuntimeError where
  kind : ErrorKind
  what : Str
  deriving DecidableEq, Repr

/-! ## `checkFlagString` (lines 26-38) -/

/-- The function `checkFlagString`: lowercase the value, then compare it with the
true tokens, then with the false tokens, and throw otherwise. -/
def checkFlagString (value : Str) : Except RuntimeError Bool :=
  let value := lowercase value
  if value = "1".toList ∨ value = "on".toList ∨ value = "yes".toList then
    .ok true
  else if value = [] ∨ value = "0".toList ∨ value = "off".toList ∨ value = "no".toList then
    .ok false
  else
    .error ⟨.InvalidFlagValue, "Unknown flag value ".toList ++ value⟩

/-! ## Decimal numerals -/

/-- The largest `size_t` / `unsigned long`: `std::numeric_limits<size_t>::max()`. -/
def SIZE_MAX : Nat := 2 ^ 64 - 1

/-- The value of one decimal digit character. -/
def digitVal (c : Char) : Nat :=
  c.toNat - 48

/-- The number a run of decimal digits denotes, most significant digit first. -/
def decValue (ds : Str) : Nat :=
  ds.foldl (fun acc c => acc * 10 + digitVal c) 0

/-- The decimal numeral of a natural number, as `operator<<` prints an unsigned
integer. -/
def decimal (n : Nat) : Str :=
  Nat.toDigits 10 n

/-! ## `std::stringstream` and `operator>>` for `size_t` -/

/-- An input string stream: the characters not yet extracted and the two state
bits the loop of `parse_selective_input_option` depends on. -/
structure StringStream where
  buf : Str
  eofbit : Bool
  failbit : Bool
  deriving DecidableEq, Repr

/-- The stream `std::stringstream ss(str)` right after construction. -/
def StringStream.ofStr (s : Str) : StringStream :=
  ⟨s, false, false⟩

/-- The member `good()`: no state bit is set. -/
def StringStream.good (ss : StringStream) : Bool :=
  !ss.eofbit && !ss.failbit

/-- The formatted extraction `ss >> i` for `size_t i`, in the default `dec | skipws`
format.  A stream that is not good fails at once.  Otherwise leading whitespace is
skipped (reaching the end there sets `eofbit` and `failbit`), an optional sign and
the longest run of decimal digits are read (`eofbit` is set when the run reaches
the end of the buffer), and the extraction fails when there is no digit or the
digits denote more than `SIZE_MAX`.  A numeral with a minus sign is negated in the
unsigned type.  The result is the stream afterwards and the extracted value, `none`
when `failbit` was set. -/
def StringStream.extract (ss : StringStream) : StringStream × Option Nat :=
  if !ss.good then
    ({ ss with failbit := true }, none)
  else
    match ss.buf.dropWhile isspace with
    | [] => (⟨[], true, true⟩, none)
    | c :: cs =>
      let negative := decide (c = '-')
      let body := if c = '-' ∨ c = '+' then cs else c :: cs
      let digits := body.takeWhile isdigit
      let rest := body.dropWhile isdigit
      if digits = [] then
        (⟨rest, rest.isEmpty, true⟩, none)
      else if SIZE_MAX < decValue digits then
        (⟨rest, rest.isEmpty, true⟩, none)
      else
        (⟨rest, rest.isEmpty, false⟩,
          some (if negative then (2 ^ 64 - decValue digits) % 2 ^ 64 else decValue digits))

/-- The member `peek()`: the next character without extracting it; `none` stands for
`EOF`.  On a stream that is not good the sentry sets `failbit`; at the end of the
buffer `eofbit` is set. -/
def StringStream.peek (ss : StringStream) : StringStream × Option Char :=
  if !ss.good then
    ({ ss with failbit := true }, none)
  else
    match ss.buf with
    | [] => ({ ss with eofbit := true }, none)
    | c :: _ => (ss, some c)

/-- The member `ignore()`: extract and drop one character. -/
def StringStream.ignore (ss : StringStream) : StringStream :=
  if !ss.good then
    { ss with failbit := true }
  else
    match ss.buf with
    | [] => { ss with eofbit := true }
    | _ :: cs => { ss with buf := cs }

/-! ## `parse_selective_input_option` (lines 42-55) -/

/-- The loop `for (size_t i; ss >> i;) { insert(i); if (ss.peek() == ',') ss.ignore(); }`
with a bound on the number of iterations.  The loop is left when an extraction
fails; `scanOffsets_fuel` shows that the bound used by
`parse_selective_input_option` is never the reason to stop. -/
def scanOffsets : Nat → StringStream → Finset Nat → Finset Nat
  | 0, _, offsets_to_symbolize => offsets_to_symbolize
  | fuel + 1, ss, offsets_to_symbolize =>
    match ss.extract with
    | (_, none) => offsets_to_symbolize
    | (ss1, some i) =>
      let inserted := insert i offsets_to_symbolize
      let (ss2, next) := ss1.peek
      if next = some ',' then scanOffsets fuel ss2.ignore inserted
      else scanOffsets fuel ss2 inserted

/-- The function `parse_selective_input_option`: run the loop on a stream over the
whole string, starting from the empty set.  Every successful extraction consumes at
least one character, so `offsets.length + 1` iterations always reach the failing
extraction that ends the loop. -/
def parse_selective_input_option (offsets : Str) : Finset Nat :=
  scanOffsets (offsets.length + 1) (StringStream.ofStr offsets) ∅

/-! ## `std::stoul` -/

/-- What `std::stoul(str)` does: return a value, or throw one of two exceptions. -/
inductive StoulResult where
  | value (n : Nat)
  | invalid_argument
  | out_of_range
  deriving DecidableEq, Repr

/-- The call `std::stoul(str)`, that is `strtoul(str, &end, 10)` on a 64-bit
`unsigned long`: skip leading whitespace, read an optional sign and the longest run
of decimal digits; no digit is `invalid_argument`, a magnitude above `SIZE_MAX` is
`out_of_range` (`ERANGE`), and a numeral with a minus sign is negated in the unsigned
type. -/
def stoul (str : Str) : StoulResult :=
  match str.dropWhile isspace with
  | [] => .invalid_argument
  | c :: cs =>
    let negative := decide (c = '-')
    let body := if c = '-' ∨ c = '+' then cs else c :: cs
    let digits := body.takeWhile isdigit
    if digits = [] then .invalid_argument
    else if SIZE_MAX < decValue digits then .out_of_range
    else .value (if negative then (2 ^ 64 - decValue digits) % 2 ^ 64 else decValue digits)

/-! ## The configuration record and the environment -/

/-- Modelled from the spec: the record `Config` of `Config.h`, which is not among the
sources.  The fields are those `loadConfig` writes, under the names it uses; the
path fields are optional strings, unset by default (section 3 of the specification). -/
structure Config where
  fullyConcrete : Bool
  selective_symbolization_enabled : Bool
  offsets_to_symbolize : Finset Nat
  outputDir : Option Str
  inputFile : Option Str
  logFile : Option Str
  pruning : Bool
  aflCoverageMap : Option Str
  garbageCollectionThreshold : Nat
  deriving DecidableEq

/-- Modelled from the spec: the defaults of `Config.h` (section 3 of the
specification).  The default GC threshold is an "implementation default" and is
taken as a parameter. -/
def defaultConfig (gcDefault : Nat) : Config where
  fullyConcrete := false
  selective_symbolization_enabled := false
  offsets_to_symbolize := ∅
  outputDir := none
  inputFile := none
  logFile := none
  pruning := false
  aflCoverageMap := none
  garbageCollectionThreshold := gcDefault

/-- The process environment: the value of each variable, `none` when it is not set. -/
abbrev Env := String → Option Str

/-- The call `getenv(name)`; `none` stands for `nullptr`. -/
def getenv (env : Env) (name : String) : Option Str :=
  env name

/-- The state after `loadConfig` returns or throws: `g_config` as it stands, and the
exception thrown, if any. -/
structure Outcome where
  config : Config
  error : Option RuntimeError
  deriving DecidableEq

/-- Sequencing of two statements: the second runs on the configuration the first
left, unless the first threw. -/
def Outcome.andThen (o : Outcome) (next : Config → Outcome) : Outcome :=
  match o.error with
  | some _ => o
  | none => next o.config

/-! ## `loadConfig` (lines 61-117), one definition per variable -/

/-- Lines 62-64: `SYMCC_NO_SYMBOLIC_INPUT`. -/
def loadFullyConcrete (env : Env) (g_config : Config) : Outcome :=
  match getenv env "SYMCC_NO_SYMBOLIC_INPUT" with
  | none => ⟨g_config, none⟩
  | some fullyConcrete =>
    match checkFlagString fullyConcrete with
    | .ok b => ⟨{ g_config with fullyConcrete := b }, none⟩
    | .error e => ⟨g_config, some e⟩

/-- The exception of lines 73-77: the message names the original parameter. -/
def noValidOffsets (selective_input : Str) : RuntimeError :=
  ⟨.NoValidOffsets,
    "Selective symbolization was enabled, but no valid offsets ".toList
      ++ "specified (original parameter: ".toList ++ selective_input ++ ")".toList⟩

/-- Lines 66-80: `SYMCC_SELECTIVE_INPUT`.  The parsed set is stored in `g_config`
before it is tested for emptiness. -/
def loadSelectiveInput (env : Env) (g_config : Config) : Outcome :=
  match getenv env "SYMCC_SELECTIVE_INPUT" with
  | none => ⟨g_config, none⟩
  | some selective_input =>
    let g1 := { g_config with
      offsets_to_symbolize := parse_selective_input_option selective_input }
    if g1.offsets_to_symbolize.card = 0 then
      ⟨g1, some (noValidOffsets selective_input)⟩
    else
      ⟨{ g1 with selective_symbolization_enabled := true }, none⟩

/-- Lines 82-84: `SYMCC_OUTPUT_DIR`. -/
def loadOutputDir (env : Env) (g_config : Config) : Outcome :=
  match getenv env "SYMCC_OUTPUT_DIR" with
  | none => ⟨g_config, none⟩
  | some outputDir => ⟨{ g_config with outputDir := some outputDir }, none⟩

/-- Lines 86-88: `SYMCC_INPUT_FILE`. -/
def loadInputFile (env : Env) (g_config : Config) : Outcome :=
  match getenv env "SYMCC_INPUT_FILE" with
  | none => ⟨g_config, none⟩
  | some inputFile => ⟨{ g_config with inputFile := some inputFile }, none⟩

/-- Lines 90-92: `SYMCC_LOG_FILE`. -/
def loadLogFile (env : Env) (g_config : Config) : Outcome :=
  match getenv env "SYMCC_LOG_FILE" with
  | none => ⟨g_config, none⟩
  | some logFile => ⟨{ g_config with logFile := some logFile }, none⟩

/-- Lines 94-96: `SYMCC_ENABLE_LINEARIZATION`. -/
def loadPruning (env : Env) (g_config : Config) : Outcome :=
  match getenv env "SYMCC_ENABLE_LINEARIZATION" with
  | none => ⟨g_config, none⟩
  | some pruning =>
    match checkFlagString pruning with
    | .ok b => ⟨{ g_config with pruning := b }, none⟩
    | .error e => ⟨g_config, some e⟩

/-- Lines 98-100: `SYMCC_AFL_COVERAGE_MAP`. -/
def loadAflCoverageMap (env : Env) (g_config : Config) : Outcome :=
  match getenv env "SYMCC_AFL_COVERAGE_MAP" with
  | none => ⟨g_config, none⟩
  | some aflCoverageMap => ⟨{ g_config with aflCoverageMap := some aflCoverageMap }, none⟩

/-- The `try` block of lines 104-115: the value of `std::stoul`, with its two
exceptions caught and rethrown as `std::runtime_error`. -/
def gcThreshold (garbageCollectionThreshold : Str) : Except RuntimeError Nat :=
  match stoul garbageCollectionThreshold with
  | .value n => .ok n
  | .invalid_argument =>
    .error ⟨.InvalidNumericFormat,
      "Can't convert ".toList ++ garbageCollectionThreshold ++ " to an integer".toList⟩
  | .out_of_range =>
    .error ⟨.NumericOutOfRange,
      "The GC threshold must be between 0 and ".toList ++ decimal SIZE_MAX⟩

/-- Lines 102-116: `SYMCC_GC_THRESHOLD`. -/
def loadGarbageCollectionThreshold (env : Env) (g_config : Config) : Outcome :=
  match getenv env "SYMCC_GC_THRESHOLD" with
  | none => ⟨g_config, none⟩
  | some garbageCollectionThreshold =>
    match gcThreshold garbageCollectionThreshold with
    | .ok n => ⟨{ g_config with garbageCollectionThreshold := n }, none⟩
    | .error e => ⟨g_config, some e⟩

/-- The function `loadConfig`: the eight variables in source order; a throw ends
the function and leaves `g_config` as written so far. -/
def loadConfig (env : Env) (g_config : Config) : Outcome :=
  (((((((loadFullyConcrete env g_config).andThen
    (loadSelectiveInput env)).andThen
    (loadOutputDir env)).andThen
    (loadInputFile env)).andThen
    (loadLogFile env)).andThen
    (loadPruning env)).andThen
    (loadAflCoverageMap env)).andThen
    (loadGarbageCollectionThreshold env)

/-! ## Vocabulary of the specification -/

/-- ASCII lowercasing of one character, as a table: each of the twenty-six capital
letters is replaced by the small letter at the same position, and every other
character is kept. -/
def asciiLowerChar (c : Char) : Char :=
  (("ABCDEFGHIJKLMNOPQRSTUVWXYZ".toList.zip "abcdefghijklmnopqrstuvwxyz".toList).lookup c).getD c

/-- ASCII lowercasing of a string, character by character. -/
def asciiLower (s : Str) : Str :=
  s.map asciiLowerChar

/-- The text of a well-formed offset list, from the specification's description of
the input: each item is a run of whitespace followed by the decimal numeral of its
value, and consecutive items are joined by a single comma. -/
def offsetList : List (Str × Nat) → Str
  | [] => []
  | [(ws, n)] => ws ++ decimal n
  | (ws, n) :: item :: items => ws ++ decimal n ++ ',' :: offsetList (item :: items)

/-- A string with a convertible leading integer, in the specification's words: after
optional leading whitespace and an optional sign there is a decimal digit. -/
def LeadingNumeral (s : Str) : Prop :=
  ∃ (ws sign : Str) (d : Char) (rest : Str),
    s = ws ++ sign ++ d :: rest ∧ (∀ c ∈ ws, isspace c = true) ∧
      (sign = [] ∨ sign = ['+'] ∨ sign = ['-']) ∧ isdigit d = true

/-- The invariant of the configuration record: selective symbolization is enabled
only with a non-empty set of offsets. -/
def Config.invariant (g : Config) : Prop :=
  g.selective_symbolization_enabled = true → g.offsets_to_symbolize.Nonempty

instance (g : Config) : Decidable g.invariant := by
  unfold Config.invariant
  infer_instance

/-- The eight recognised variables, in the order `loadConfig` reads them. -/
inductive Var where
  | NO_SYMBOLIC_INPUT
  | SELECTIVE_INPUT
  | OUTPUT_DIR
  | INPUT_FILE
  | LOG_FILE
  | ENABLE_LINEARIZATION
  | AFL_COVERAGE_MAP
  | GC_THRESHOLD
  deriving DecidableEq, Repr, Fintype

/-- The name under which a variable is looked up. -/
def Var.name : Var → String
  | .NO_SYMBOLIC_INPUT => "SYMCC_NO_SYMBOLIC_INPUT"
  | .SELECTIVE_INPUT => "SYMCC_SELECTIVE_INPUT"
  | .OUTPUT_DIR => "SYMCC_OUTPUT_DIR"
  | .INPUT_FILE => "SYMCC_INPUT_FILE"
  | .LOG_FILE => "SYMCC_LOG_FILE"
  | .ENABLE_LINEARIZATION => "SYMCC_ENABLE_LINEARIZATION"
  | .AFL_COVERAGE_MAP => "SYMCC_AFL_COVERAGE_MAP"
  | .GC_THRESHOLD => "SYMCC_GC_THRESHOLD"

/-- The position of a variable in the processing order. -/
def Var.rank : Var → Nat
  | .NO_SYMBOLIC_INPUT => 0
  | .SELECTIVE_INPUT => 1
  | .OUTPUT_DIR => 2
  | .INPUT_FILE => 3
  | .LOG_FILE => 4
  | .ENABLE_LINEARIZATION => 5
  | .AFL_COVERAGE_MAP => 6
  | .GC_THRESHOLD => 7

/-- The variables in processing order. -/
def Var.all : List Var :=
  [.NO_SYMBOLIC_INPUT, .SELECTIVE_INPUT, .OUTPUT_DIR, .INPUT_FILE, .LOG_FILE,
    .ENABLE_LINEARIZATION, .AFL_COVERAGE_MAP, .GC_THRESHOLD]

/-- The statement of `loadConfig` that handles a variable. -/
def Var.load : Var → Env → Config → Outcome
  | .NO_SYMBOLIC_INPUT => loadFullyConcrete
  | .SELECTIVE_INPUT => loadSelectiveInput
  | .OUTPUT_DIR => loadOutputDir
  | .INPUT_FILE => loadInputFile
  | .LOG_FILE => loadLogFile
  | .ENABLE_LINEARIZATION => loadPruning
  | .AFL_COVERAGE_MAP => loadAflCoverageMap
  | .GC_THRESHOLD => loadGarbageCollectionThreshold

/-- The exception a computation ends with, if any. -/
def thrown {α : Type} : Except RuntimeError α → Option RuntimeError
  | .ok _ => none
  | .error e => some e

/-- The error the parser of a variable raises on a raw value, `none` when the value
is accepted: the flag parser for the two flags, the emptiness check on the parsed
offsets, the bounded integer parser for the GC threshold; path values are copied
and never fail. -/
def Var.failure (v : Var) (raw : Str) : Option RuntimeError :=
  match v with
  | .NO_SYMBOLIC_INPUT => thrown (checkFlagString raw)
  | .SELECTIVE_INPUT =>
    if parse_selective_input_option raw = ∅ then some (noValidOffsets raw) else none
  | .ENABLE_LINEARIZATION => thrown (checkFlagString raw)
  | .GC_THRESHOLD => thrown (gcThreshold raw)
  | _ => none

/-- The error the parser of a variable raises under an environment: `none` when the
variable is absent or its value is accepted. -/
def Var.failureIn (v : Var) (env : Env) : Option RuntimeError :=
  (env v.name).bind v.failure

/-- The fields of a variable hold the value loaded from the raw string. -/
def Var.loaded (v : Var) (raw : Str) (g : Config) : Prop :=
  match v with
  | .NO_SYMBOLIC_INPUT => checkFlagString raw = .ok g.fullyConcrete
  | .SELECTIVE_INPUT =>
    g.offsets_to_symbolize = parse_selective_input_option raw ∧
      g.selective_symbolization_enabled = true
  | .OUTPUT_DIR => g.outputDir = some raw
  | .INPUT_FILE => g.inputFile = some raw
  | .LOG_FILE => g.logFile = some raw
  | .ENABLE_LINEARIZATION => checkFlagString raw = .ok g.pruning
  | .AFL_COVERAGE_MAP => g.aflCoverageMap = some raw
  | .GC_THRESHOLD => gcThreshold raw = .ok g.garbageCollectionThreshold

/-- The fields of a variable have the same values in two configurations. -/
def Var.unchanged (v : Var) (before after : Config) : Prop :=
  match v with
  | .NO_SYMBOLIC_INPUT => after.fullyConcrete = before.fullyConcrete
  | .SELECTIVE_INPUT =>
    after.offsets_to_symbolize = before.offsets_to_symbolize ∧
      after.selective_symbolization_enabled = before.selective_symbolization_enabled
  | .OUTPUT_DIR => after.outputDir = before.outputDir
  | .INPUT_FILE => after.inputFile = before.inputFile
  | .LOG_FILE => after.logFile = before.logFile
  | .ENABLE_LINEARIZATION => after.pruning = before.pruning
  | .AFL_COVERAGE_MAP => after.aflCoverageMap = before.aflCoverageMap
  | .GC_THRESHOLD => after.garbageCollectionThreshold = before.garbageCollectionThreshold

/-- The statements of a list of variables, run in sequence after an outcome. -/
def runVars (env : Env) (vs : List Var) (o : Outcome) : Outcome :=
  vs.foldl (fun o v => o.andThen (v.load env)) o

/-- An environment given by a finite list of bindings, the first binding of a name
taking effect. -/
def envOf (bindings : List (String × String)) : Env :=
  fun name => (bindings.lookup name).map String.toList

/-- The configurations reached from the default one by runs of `loadConfig`, each
under an arbitrary environment and whatever its outcome, where no run that starts
with selective symbolization enabled fails with `NoValidOffsets`. -/
inductive Reachable (gcDefault : Nat) : Config → Prop where
  | start : Reachable gcDefault (defaultConfig gcDefault)
  | run (env : Env) (g : Config) (hg : Reachable gcDefault g)
      (hsel : g.selective_symbolization_enabled = true →
        ∀ e, (loadConfig env g).error = some e → e.kind ≠ .NoValidOffsets) :
      Reachable gcDefault (loadConfig env g).config

/-- The text left to scan after a number: a comma that directly follows the number
is consumed, anything else stays. -/
def afterComma : Str → Str
  | ',' :: rest => rest
  | s => s

/-- The numeric token at the start of a string, if one can be extracted: its value
and the text after it.  This is the extraction `ss >> i` on a fresh stream. -/
def numericToken (s : Str) : Option (Nat × Str) :=
  match (StringStream.ofStr s).extract with
  | (ss, some n) => some (n, ss.buf)
  | (_, none) => none

/-- The scanning algorithm in the specification's words: repeatedly scan a numeric
token and insert its value; if a comma follows the number immediately, consume it
and continue; stop when no further numeric token can be extracted. -/
inductive ScanResult : Str → Finset Nat → Prop where
  | stop (s : Str) (h : numericToken s = none) : ScanResult s ∅
  | token (s : Str) (n : Nat) (rest : Str) (result : Finset Nat)
      (h : numericToken s = some (n, rest)) (hrest : ScanResult (afterComma rest) result) :
      ScanResult s (insert n result)

/-- The text of a list of numbers separated only by whitespace: each item is a run
of whitespace followed by the decimal numeral of its value, with no comma. -/
def spacedList : List (Str × Nat) → Str
  | [] => []
  | (ws, n) :: items => ws ++ decimal n ++ spacedList items

/-! ## Decimal numerals: printing and reading back -/

theorem digitChar_spec (k : Nat) (hk : k < 10) :
    isdigit (Nat.digitChar k) = true ∧ digitVal (Nat.digitChar k) = k := by
  interval_cases k <;> decide

theorem decValue_append (xs ys : Str) :
    decValue (xs ++ ys) = ys.foldl (fun acc c => acc * 10 + digitVal c) (decValue xs) := by
  simp [decValue, List.foldl_append]

theorem toDigitsCore_spec : ∀ (fuel n : Nat) (ds : Str), n < fuel →
    ∃ pre : Str, Nat.toDigitsCore 10 fuel n ds = pre ++ ds ∧ pre ≠ [] ∧
      (∀ c ∈ pre, isdigit c = true) ∧ decValue pre = n := by
  intro fuel
  induction fuel with
  | zero => intro n ds h; omega
  | succ fuel ih =>
    intro n ds hn
    have hd := digitChar_spec (n % 10) (Nat.mod_lt _ (by norm_num))
    by_cases hq : n / 10 = 0
    · refine ⟨[Nat.digitChar (n % 10)], ?_, by simp, ?_, ?_⟩
      · simp [Nat.toDigitsCore, hq]
      · intro c hc
        simp only [List.mem_singleton] at hc
        rw [hc]; exact hd.1
      · simp only [decValue, List.foldl, hd.2]
        omega
    · obtain ⟨pre, hpre, -, hdig, hval⟩ :=
        ih (n / 10) (Nat.digitChar (n % 10) :: ds) (by omega)
      refine ⟨pre ++ [Nat.digitChar (n % 10)], ?_, by simp, ?_, ?_⟩
      · simp [Nat.toDigitsCore, hq, hpre]
      · intro c hc
        rcases List.mem_append.mp hc with h | h
        · exact hdig c h
        · simp only [List.mem_singleton] at h
          rw [h]; exact hd.1
      · rw [decValue_append, hval]
        simp only [List.foldl, hd.2]
        omega

theorem decimal_spec (n : Nat) :
    decimal n ≠ [] ∧ (∀ c ∈ decimal n, isdigit c = true) ∧ decValue (decimal n) = n := by
  obtain ⟨pre, hpre, hne, hdig, hval⟩ := toDigitsCore_spec (n + 1) n [] (by omega)
  have : decimal n = pre := by simpa [decimal, Nat.toDigits] using hpre
  rw [this]
  exact ⟨hne, hdig, hval⟩

/-! ## Scanning runs of characters -/

theorem takeWhile_run (p : Char → Bool) (run tail : Str)
    (hrun : ∀ c ∈ run, p c = true) (htail : ∀ c ∈ tail.head?, p c = false) :
    (run ++ tail).takeWhile p = run ∧ (run ++ tail).dropWhile p = tail := by
  induction run with
  | nil =>
    cases tail with
    | nil => simp
    | cons c cs =>
      have := htail c (by simp)
      simp [List.takeWhile, List.dropWhile, this]
  | cons c cs ih =>
    have hc := hrun c (by simp)
    have := ih (fun d hd => hrun d (by simp [hd]))
    simp [List.takeWhile, List.dropWhile, hc, this]

theorem isdigit_not_isspace (c : Char) (h : isdigit c = true) : isspace c = false := by
  simp only [isdigit, isspace, decide_eq_true_eq, decide_eq_false_iff_not] at *
  omega

theorem isdigit_not_sign (c : Char) (h : isdigit c = true) : ¬ (c = '-' ∨ c = '+') := by
  rintro (rfl | rfl) <;> simp [isdigit] at h

theorem comma_not_isdigit : isdigit ',' = false := by decide

/-! ## One extraction -/

/-- Extracting from a good stream that holds whitespace, then the decimal numeral of
a value within range, then either nothing or text that starts with a non-digit. -/
theorem extract_decimal (ws tail : Str) (n : Nat)
    (hws : ∀ c ∈ ws, isspace c = true) (hn : n ≤ SIZE_MAX)
    (htail : ∀ c ∈ tail.head?, isdigit c = false) :
    (StringStream.ofStr (ws ++ decimal n ++ tail)).extract
      = (⟨tail, tail.isEmpty, false⟩, some n) := by
  obtain ⟨hne, hdig, hval⟩ := decimal_spec n
  obtain ⟨d, ds, hd⟩ := List.exists_cons_of_ne_nil hne
  have hdd : isdigit d = true := hdig d (by simp [hd])
  have hskip : (ws ++ (decimal n ++ tail)).dropWhile isspace = decimal n ++ tail :=
    (takeWhile_run isspace ws (decimal n ++ tail) hws
      (by simp [hd, isdigit_not_isspace d hdd])).2
  have hrun := takeWhile_run isdigit (decimal n) tail hdig htail
  have hsign := isdigit_not_sign d hdd
  have hminus : ¬ d = '-' := fun h => hsign (Or.inl h)
  simp only [StringStream.extract, StringStream.ofStr, StringStream.good, List.append_assoc,
    hskip]
  rw [hd] at hrun hval hne ⊢
  simp only [List.cons_append, Bool.not_false, Bool.and_self, Bool.not_true, Bool.false_eq_true,
    if_false, hsign]
  rw [← List.cons_append, hrun.1, hrun.2, hval]
  simp [hminus, Nat.not_lt.mpr hn]

/-! ## The scanning loop -/

/-- A successful extraction consumes at least one character. -/
theorem extract_progress (ss ss1 : StringStream) (i : Nat)
    (h : ss.extract = (ss1, some i)) : ss1.buf.length < ss.buf.length := by
  unfold StringStream.extract at h
  split at h
  · simp at h
  · split at h
    · simp at h
    · rename_i c cs hdrop
      have hlen : (c :: cs).length ≤ ss.buf.length := by
        rw [← hdrop]
        exact (List.dropWhile_sublist _).length_le
      have hbody : (if c = '-' ∨ c = '+' then cs else c :: cs).length ≤ (c :: cs).length := by
        split <;> simp
      simp only at h
      generalize (if c = '-' ∨ c = '+' then cs else c :: cs) = body at h hbody
      have h1 := congrArg List.length (List.takeWhile_append_dropWhile isdigit body)
      simp only [List.length_append] at h1
      by_cases hdig : body.takeWhile isdigit = []
      · simp [hdig] at h
      · have h2 : 0 < (body.takeWhile isdigit).length := List.length_pos.mpr hdig
        rw [if_neg hdig] at h
        split at h
        · simp at h
        · simp only [Prod.mk.injEq, Option.some.injEq] at h
          rw [← h.1]
          simp only
          omega

theorem peek_buf (ss : StringStream) : ss.peek.1.buf = ss.buf := by
  unfold StringStream.peek
  split
  · rfl
  · split <;> simp_all

theorem ignore_buf_length (ss : StringStream) : ss.ignore.buf.length ≤ ss.buf.length := by
  unfold StringStream.ignore
  split
  · simp
  · split <;> simp_all

/-- The result of the loop does not depend on the iteration bound, once the bound
exceeds the number of characters left in the stream. -/
theorem scanOffsets_fuel_irrel : ∀ (f1 f2 : Nat) (ss : StringStream) (acc : Finset Nat),
    ss.buf.length < f1 → ss.buf.length < f2 →
    scanOffsets f1 ss acc = scanOffsets f2 ss acc := by
  intro f1
  induction f1 with
  | zero => intro f2 ss acc h; omega
  | succ f1 ih =>
    intro f2 ss acc h1 h2
    cases f2 with
    | zero => omega
    | succ f2 =>
      unfold scanOffsets
      rcases hex : ss.extract with ⟨ss1, _ | i⟩
      · rfl
      · have hp := extract_progress ss ss1 i hex
        have hb := congrArg List.length (peek_buf ss1)
        have hi := ignore_buf_length ss1.peek.1
        simp only
        split
        · exact ih _ _ _ (by omega) (by omega)
        · exact ih _ _ _ (by omega) (by omega)

/-- The iteration bound of `parse_selective_input_option` is never what ends the
loop: every larger bound gives the same set. -/
theorem scanOffsets_fuel (fuel : Nat) (offsets : Str) (h : offsets.length < fuel) :
    scanOffsets fuel (StringStream.ofStr offsets) ∅ = parse_selective_input_option offsets :=
  scanOffsets_fuel_irrel _ _ _ _ h (by simp [StringStream.ofStr])

/-! ## Well-formed offset lists -/

theorem scanOffsets_stopped (fuel : Nat) (acc : Finset Nat) (eof fl : Bool)
    (h : (eof || fl) = true) : scanOffsets fuel ⟨[], eof, fl⟩ acc = acc := by
  cases fuel with
  | zero => rfl
  | succ fuel =>
    cases eof <;> cases fl <;> simp_all [scanOffsets, StringStream.extract, StringStream.good]

theorem scanOffsets_offsetList : ∀ (items : List (Str × Nat)) (fuel : Nat) (acc : Finset Nat),
    (∀ item ∈ items, ∀ c ∈ item.1, isspace c = true) →
    (∀ item ∈ items, item.2 < 2 ^ 64) →
    (offsetList items).length < fuel →
    scanOffsets fuel (StringStream.ofStr (offsetList items)) acc
      = acc ∪ (items.map Prod.snd).toFinset := by
  intro items
  induction items with
  | nil =>
    intro fuel acc _ _ hf
    cases fuel with
    | zero => simp at hf
    | succ fuel =>
      simp [scanOffsets, offsetList, StringStream.extract, StringStream.ofStr,
        StringStream.good]
  | cons item items ih =>
    intro fuel acc hws hlt hf
    obtain ⟨ws, n⟩ := item
    have hw : ∀ c ∈ ws, isspace c = true := hws (ws, n) (by simp)
    have hn : n ≤ SIZE_MAX := by
      have := hlt (ws, n) (by simp)
      simp only [SIZE_MAX] at *
      omega
    cases fuel with
    | zero => simp at hf
    | succ fuel =>
      cases items with
      | nil =>
        have hex := extract_decimal ws [] n hw hn (by simp)
        simp only [List.append_nil] at hex
        simp only [offsetList, scanOffsets, hex, StringStream.peek, StringStream.good]
        simp only [List.isEmpty_nil, Bool.not_true, Bool.not_false, Bool.and_true,
          Bool.false_and, Bool.false_eq_true, if_true, if_false, Bool.not_false, reduceCtorEq]
        rw [scanOffsets_stopped _ _ _ _ (by simp)]
        ext x
        simp only [List.map_cons, List.map_nil, List.toFinset_cons, List.toFinset_nil,
          Finset.mem_union, Finset.mem_insert, Finset.not_mem_empty]
        tauto
      | cons item2 items =>
        have hex := extract_decimal ws (',' :: offsetList (item2 :: items)) n hw hn
          (by simp [comma_not_isdigit])
        have hlen : (offsetList (item2 :: items)).length < fuel := by
          simp only [offsetList, List.length_append, List.length_cons] at hf
          omega
        have hrec := ih fuel (insert n acc)
          (fun it hit => hws it (by simp [hit]))
          (fun it hit => hlt it (by simp [hit])) hlen
        simp only [offsetList, scanOffsets, hex, StringStream.peek, StringStream.good,
          StringStream.ignore]
        simp only [List.isEmpty_cons, Bool.not_false, Bool.and_self, Bool.not_true,
          Bool.false_eq_true, if_false, if_true]
        simp only [StringStream.ofStr] at hrec
        rw [hrec]
        ext x
        simp only [List.map_cons, List.toFinset_cons, Finset.mem_union, Finset.mem_insert]
        tauto

/-! ## The loader as a sequence of per-variable statements -/

theorem loadConfig_eq_runVars (env : Env) (g : Config) :
    loadConfig env g = runVars env Var.all ⟨g, none⟩ := rfl

theorem runVars_cons (env : Env) (v : Var) (vs : List Var) (o : Outcome) :
    runVars env (v :: vs) o = runVars env vs (o.andThen (v.load env)) := rfl

theorem runVars_append (env : Env) (us vs : List Var) (o : Outcome) :
    runVars env (us ++ vs) o = runVars env vs (runVars env us o) := by
  simp [runVars, List.foldl_append]

theorem andThen_error (o : Outcome) (next : Config → Outcome) (e : RuntimeError)
    (h : o.error = some e) : o.andThen next = o := by
  simp [Outcome.andThen, h]

theorem andThen_ok (g : Config) (next : Config → Outcome) :
    Outcome.andThen ⟨g, none⟩ next = next g := rfl

theorem Outcome.eq_of_error_none (o : Outcome) (h : o.error = none) :
    o = ⟨o.config, none⟩ := by
  cases o
  simp_all

theorem runVars_error (env : Env) (vs : List Var) (o : Outcome) (e : RuntimeError)
    (h : o.error = some e) : runVars env vs o = o := by
  induction vs with
  | nil => rfl
  | cons v vs ih => rw [runVars_cons, andThen_error o _ e h, ih]

theorem Var.unchanged_refl (v : Var) (g : Config) : v.unchanged g g := by
  cases v <;> simp [Var.unchanged]

theorem Var.unchanged_trans (v : Var) (g1 g2 g3 : Config)
    (h12 : v.unchanged g1 g2) (h23 : v.unchanged g2 g3) : v.unchanged g1 g3 := by
  cases v <;> simp_all [Var.unchanged]

theorem Var.loaded_of_unchanged (v : Var) (raw : Str) (g1 g2 : Config)
    (h : v.unchanged g1 g2) (hl : v.loaded raw g1) : v.loaded raw g2 := by
  cases v <;> simp_all [Var.loaded, Var.unchanged]

/-- A statement leaves the fields of every other variable alone, whatever its
outcome, and its own fields too when its variable is absent. -/
theorem Var.load_unchanged (env : Env) (v w : Var) (g : Config)
    (h : w ≠ v ∨ env w.name = none) : w.unchanged g (v.load env g).config := by
  cases v <;> cases w <;>
    simp only [Var.load, Var.unchanged, Var.name, loadFullyConcrete, loadSelectiveInput,
      loadOutputDir, loadInputFile, loadLogFile, loadPruning, loadAflCoverageMap,
      loadGarbageCollectionThreshold, getenv, ne_eq, not_true_eq_false, false_or,
      reduceCtorEq, not_false_eq_true, true_or] at h ⊢ <;>
    first
    | (rw [h]; done)
    | (rw [h]; exact ⟨rfl, rfl⟩)
    | (repeat' split) <;> first | rfl | exact ⟨rfl, rfl⟩

/-- The statement of an absent variable does nothing. -/
theorem Var.load_absent (env : Env) (v : Var) (g : Config) (h : env v.name = none) :
    v.load env g = ⟨g, none⟩ := by
  cases v <;>
    simp only [Var.load, Var.name, loadFullyConcrete, loadSelectiveInput,
      loadOutputDir, loadInputFile, loadLogFile, loadPruning, loadAflCoverageMap,
      loadGarbageCollectionThreshold, getenv] at h ⊢ <;>
    rw [h]

/-- The statement of a variable whose value is accepted does not throw and loads
the value. -/
theorem Var.load_ok (env : Env) (v : Var) (g : Config) (raw : Str)
    (h : env v.name = some raw) (hok : v.failure raw = none) :
    (v.load env g).error = none ∧ v.loaded raw (v.load env g).config := by
  cases v <;>
    simp only [Var.load, Var.name, Var.failure, Var.loaded, loadFullyConcrete,
      loadSelectiveInput, loadOutputDir, loadInputFile, loadLogFile, loadPruning,
      loadAflCoverageMap, loadGarbageCollectionThreshold, getenv] at h hok ⊢ <;>
    rw [h] <;> simp only
  · cases hc : checkFlagString raw <;> simp_all [thrown]
  · have : ¬ (parse_selective_input_option raw).card = 0 := by
      simpa [Finset.card_eq_zero] using hok
    simp [this]
  · simp
  · simp
  · simp
  · cases hc : checkFlagString raw <;> simp_all [thrown]
  · simp
  · cases hc : gcThreshold raw <;> simp_all [thrown]

/-- The statement of a variable whose value is rejected throws the parser's error. -/
theorem Var.load_fail (env : Env) (v : Var) (g : Config) (raw : Str) (e : RuntimeError)
    (h : env v.name = some raw) (hf : v.failure raw = some e) :
    (v.load env g).error = some e := by
  cases v <;>
    simp only [Var.load, Var.name, Var.failure, loadFullyConcrete,
      loadSelectiveInput, loadOutputDir, loadInputFile, loadLogFile, loadPruning,
      loadAflCoverageMap, loadGarbageCollectionThreshold, getenv, reduceCtorEq] at h hf ⊢ <;>
    rw [h] <;> simp only
  · cases hc : checkFlagString raw <;> simp_all [thrown]
  · have : (parse_selective_input_option raw).card = 0 := by
      by_contra hne
      simp [Finset.card_eq_zero] at hne
      simp [hne] at hf
    have he : noValidOffsets raw = e := by
      simp [Finset.card_eq_zero] at this
      simpa [this] using hf
    simp [this, he]
  · cases hc : checkFlagString raw <;> simp_all [thrown]
  · cases hc : gcThreshold raw <;> simp_all [thrown]

/-- Running a list of statements leaves the fields of a variable alone when the
variable is not in the list or is absent, whatever the outcome. -/
theorem runVars_unchanged (env : Env) (w : Var) :
    ∀ (vs : List Var) (o : Outcome), (w ∉ vs ∨ env w.name = none) →
      w.unchanged o.config (runVars env vs o).config := by
  intro vs
  induction vs with
  | nil => intro o _; exact w.unchanged_refl _
  | cons v vs ih =>
    intro o h
    have hv : w ≠ v ∨ env w.name = none := by
      rcases h with h | h
      · exact Or.inl (fun e => h (by simp [e]))
      · exact Or.inr h
    have hvs : w ∉ vs ∨ env w.name = none := by
      rcases h with h | h
      · exact Or.inl (fun e => h (by simp [e]))
      · exact Or.inr h
    rw [runVars_cons]
    refine w.unchanged_trans _ _ _ ?_ (ih _ hvs)
    cases he : o.error with
    | some e => rw [andThen_error o _ e he]; exact w.unchanged_refl _
    | none =>
      have : o.andThen (v.load env) = v.load env o.config := by
        simp [Outcome.andThen, he]
      rw [this]
      exact Var.load_unchanged env v w o.config hv

/-- When no variable of the list is rejected, the statements run to the end without a
throw; afterwards every present variable of the list is loaded and the fields of
every other variable are as before. -/
theorem runVars_ok (env : Env) :
    ∀ (vs : List Var) (g : Config), vs.Nodup → (∀ w ∈ vs, w.failureIn env = none) →
      (runVars env vs ⟨g, none⟩).error = none ∧
      ∀ w ∈ vs, ∀ raw, env w.name = some raw →
        w.loaded raw (runVars env vs ⟨g, none⟩).config := by
  intro vs
  induction vs with
  | nil => intro g _ _; exact ⟨rfl, by simp⟩
  | cons v vs ih =>
    intro g hnd hok
    have hv : v ∉ vs := (List.nodup_cons.mp hnd).1
    rw [runVars_cons, andThen_ok]
    have hvok := hok v (by simp)
    cases hev : env v.name with
    | none =>
      rw [Var.load_absent env v g hev]
      obtain ⟨h1, h2⟩ := ih g (List.nodup_cons.mp hnd).2 (fun w hw => hok w (by simp [hw]))
      refine ⟨h1, ?_⟩
      intro w hw raw hraw
      rcases List.mem_cons.mp hw with rfl | hw
      · rw [hev] at hraw; cases hraw
      · exact h2 w hw raw hraw
    | some r =>
      have hfr : v.failure r = none := by simpa [Var.failureIn, hev] using hvok
      obtain ⟨e1, l1⟩ := Var.load_ok env v g r hev hfr
      have hout := Outcome.eq_of_error_none _ e1
      rw [hout]
      obtain ⟨h1, h2⟩ := ih (v.load env g).config (List.nodup_cons.mp hnd).2
        (fun w hw => hok w (by simp [hw]))
      refine ⟨h1, ?_⟩
      intro w hw raw hraw
      rcases List.mem_cons.mp hw with rfl | hw
      · rw [hev] at hraw
        cases hraw
        exact Var.loaded_of_unchanged _ _ _ _
          (runVars_unchanged env _ vs ⟨(Var.load _ env g).config, none⟩ (Or.inl hv)) l1
      · exact h2 w hw raw hraw

/-- Every error of a run is the error some present variable of the list is rejected
with. -/
theorem runVars_error_source (env : Env) :
    ∀ (vs : List Var) (g : Config) (e : RuntimeError),
      (runVars env vs ⟨g, none⟩).error = some e → ∃ v ∈ vs, v.failureIn env = some e := by
  intro vs
  induction vs with
  | nil => intro g e h; simp [runVars] at h
  | cons v vs ih =>
    intro g e h
    rw [runVars_cons, andThen_ok] at h
    cases hev : env v.name with
    | none =>
      rw [Var.load_absent env v g hev] at h
      obtain ⟨u, hu, hf⟩ := ih g e h
      exact ⟨u, by simp [hu], hf⟩
    | some r =>
      cases hfr : v.failure r with
      | none =>
        obtain ⟨e1, -⟩ := Var.load_ok env v g r hev hfr
        have hout := Outcome.eq_of_error_none _ e1
        rw [hout] at h
        obtain ⟨u, hu, hf⟩ := ih _ e h
        exact ⟨u, by simp [hu], hf⟩
      | some e2 =>
        have he2 := Var.load_fail env v g r e2 hev hfr
        rw [runVars_error env vs _ e2 he2, he2] at h
        cases h
        exact ⟨v, by simp, by simp [Var.failureIn, hev, hfr]⟩

/-- The run up to the first rejected variable: the statements before it do not
throw, its own statement throws the parser's error, and the rest is not run. -/
theorem runVars_first_failure (env : Env) (pre post : List Var) (v : Var) (g : Config)
    (e : RuntimeError) (hnd : (pre ++ v :: post).Nodup)
    (hpre : ∀ w ∈ pre, w.failureIn env = none) (hv : v.failureIn env = some e) :
    runVars env (pre ++ v :: post) ⟨g, none⟩
      = v.load env (runVars env pre ⟨g, none⟩).config ∧
    (v.load env (runVars env pre ⟨g, none⟩).config).error = some e := by
  have hpn : pre.Nodup := (List.nodup_append.mp hnd).1
  obtain ⟨h1, -⟩ := runVars_ok env pre g hpn hpre
  have hout := Outcome.eq_of_error_none _ h1
  obtain ⟨r, hr, hfr⟩ : ∃ r, env v.name = some r ∧ v.failure r = some e := by
    cases hev : env v.name with
    | none => simp [Var.failureIn, hev] at hv
    | some r => exact ⟨r, rfl, by simpa [Var.failureIn, hev] using hv⟩
  have he := Var.load_fail env v (runVars env pre ⟨g, none⟩).config r e hr hfr
  refine ⟨?_, he⟩
  rw [runVars_append, runVars_cons]
  conv_lhs => rw [hout]
  rw [andThen_ok, runVars_error env post _ e he]

/-- The variables before and after a given one in the processing order. -/
theorem Var.all_split (v : Var) :
    ∃ pre post : List Var, Var.all = pre ++ v :: post ∧
      (∀ w, w ∈ pre ↔ w.rank < v.rank) ∧ (∀ w, w ∈ post ↔ v.rank < w.rank) := by
  cases v
  · exact ⟨[], _, rfl, by decide, by decide⟩
  · exact ⟨[_], _, rfl, by decide, by decide⟩
  · exact ⟨[_, _], _, rfl, by decide, by decide⟩
  · exact ⟨[_, _, _], _, rfl, by decide, by decide⟩
  · exact ⟨[_, _, _, _], _, rfl, by decide, by decide⟩
  · exact ⟨[_, _, _, _, _], _, rfl, by decide, by decide⟩
  · exact ⟨[_, _, _, _, _, _], _, rfl, by decide, by decide⟩
  · exact ⟨[_, _, _, _, _, _, _], _, rfl, by decide, by decide⟩

theorem Var.all_nodup : Var.all.Nodup := by decide

/-! ## `std::stoul` on numerals -/

theorem stoul_decimal (n : Nat) :
    stoul (decimal n) = if n ≤ SIZE_MAX then .value n else .out_of_range := by
  obtain ⟨hne, hdig, hval⟩ := decimal_spec n
  obtain ⟨d, ds, hd⟩ := List.exists_cons_of_ne_nil hne
  have hdd : isdigit d = true := hdig d (by simp [hd])
  have hskip : (decimal n).dropWhile isspace = decimal n := by
    rw [hd]
    simp [List.dropWhile, isdigit_not_isspace d hdd]
  have hrun : (decimal n).takeWhile isdigit = decimal n := by
    have := (takeWhile_run isdigit (decimal n) [] hdig (by simp)).1
    simpa using this
  have hsign := isdigit_not_sign d hdd
  have hminus : ¬ d = '-' := fun h => hsign (Or.inl h)
  unfold stoul
  rw [hskip, hd]
  rw [hd] at hrun hval hne
  simp only
  rw [if_neg hsign, hrun, if_neg hne, hval]
  by_cases hle : n ≤ SIZE_MAX
  · simp [hle, hminus, Nat.not_lt.mpr hle]
  · simp [hle, Nat.lt_of_not_le hle]

theorem takeWhile_ne_nil (p : Char → Bool) (l : Str) (h : l.takeWhile p ≠ []) :
    ∃ d rest, l = d :: rest ∧ p d = true := by
  cases l with
  | nil => simp at h
  | cons d rest =>
    refine ⟨d, rest, rfl, ?_⟩
    by_contra hp
    simp [List.takeWhile, hp] at h

theorem stoul_digits (body : Str) (negative : Bool) (d : Char) (rest : Str)
    (hb : body = d :: rest) (hd : isdigit d = true) :
    (if body.takeWhile isdigit = [] then StoulResult.invalid_argument
      else if SIZE_MAX < decValue (body.takeWhile isdigit) then .out_of_range
      else .value (if negative then (2 ^ 64 - decValue (body.takeWhile isdigit)) % 2 ^ 64
        else decValue (body.takeWhile isdigit))) ≠ .invalid_argument := by
  have : body.takeWhile isdigit ≠ [] := by
    rw [hb]; simp [List.takeWhile, hd]
  rw [if_neg this]
  split <;> simp

/-- The call `std::stoul` throws `invalid_argument` exactly on the strings without a
leading numeral. -/
theorem stoul_invalid_iff (s : Str) : stoul s = .invalid_argument ↔ ¬ LeadingNumeral s := by
  constructor
  · intro hs hl
    obtain ⟨ws, sign, d, rest, rfl, hws, hsign, hd⟩ := hl
    have hhead : ∀ c ∈ (sign ++ d :: rest).head?, isspace c = false := by
      rcases hsign with rfl | rfl | rfl
      · simpa using isdigit_not_isspace d hd
      · simp; decide
      · simp; decide
    have hskip : (ws ++ sign ++ d :: rest).dropWhile isspace = sign ++ d :: rest := by
      rw [List.append_assoc]
      exact (takeWhile_run isspace ws _ hws hhead).2
    unfold stoul at hs
    rw [hskip] at hs
    have hnot := isdigit_not_sign d hd
    rcases hsign with rfl | rfl | rfl
    · simp only [List.nil_append, hnot, if_false] at hs
      exact stoul_digits (d :: rest) _ d rest rfl hd hs
    · simp only [List.singleton_append, or_true, if_true] at hs
      exact stoul_digits (d :: rest) _ d rest rfl hd hs
    · simp only [List.singleton_append, true_or, if_true] at hs
      exact stoul_digits (d :: rest) _ d rest rfl hd hs
  · intro hl
    by_contra hs
    apply hl
    have hsplit := List.takeWhile_append_dropWhile isspace s
    have hwsp : ∀ c ∈ s.takeWhile isspace, isspace c = true :=
      fun c hc => List.mem_takeWhile_imp hc
    unfold stoul at hs
    cases hdrop : s.dropWhile isspace with
    | nil => simp [hdrop] at hs
    | cons c cs =>
      rw [hdrop] at hs hsplit
      simp only at hs
      by_cases hc : c = '-' ∨ c = '+'
      · simp only [hc, if_true] at hs
        have hdig : cs.takeWhile isdigit ≠ [] := by
          intro h; simp [h] at hs
        obtain ⟨d, rest, hcs, hd⟩ := takeWhile_ne_nil isdigit cs hdig
        refine ⟨s.takeWhile isspace, [c], d, rest, ?_, hwsp, ?_, hd⟩
        · rw [← hcs]; simpa using hsplit.symm
        · rcases hc with rfl | rfl <;> simp
      · simp only [hc, if_false] at hs
        have hdig : (c :: cs).takeWhile isdigit ≠ [] := by
          intro h; simp [h] at hs
        obtain ⟨d, rest, hcs, hd⟩ := takeWhile_ne_nil isdigit (c :: cs) hdig
        refine ⟨s.takeWhile isspace, [], d, rest, ?_, hwsp, Or.inl rfl, hd⟩
        rw [← hcs]; simpa using hsplit.symm

theorem gcThreshold_invalid_iff (s : Str) :
    (∃ e, gcThreshold s = .error e ∧ e.kind = .InvalidNumericFormat)
      ↔ stoul s = .invalid_argument := by
  unfold gcThreshold
  cases stoul s <;> simp

/-! ## Error kinds -/

theorem checkFlagString_error_kind (s : Str) (e : RuntimeError)
    (h : checkFlagString s = .error e) : e.kind = .InvalidFlagValue := by
  unfold checkFlagString at h
  simp only at h
  split at h
  · cases h
  · split at h
    · cases h
    · cases h; rfl

theorem gcThreshold_error_kind (s : Str) (e : RuntimeError)
    (h : gcThreshold s = .error e) :
    e.kind = .InvalidNumericFormat ∨ e.kind = .NumericOutOfRange := by
  unfold gcThreshold at h
  split at h
  · cases h
  · cases h; exact Or.inl rfl
  · cases h; exact Or.inr rfl

/-- Only the emptiness check of `SYMCC_SELECTIVE_INPUT` raises `NoValidOffsets`. -/
theorem Var.failure_kind (v : Var) (raw : Str) (e : RuntimeError)
    (h : v.failure raw = some e) : e.kind = .NoValidOffsets ↔ v = .SELECTIVE_INPUT := by
  cases v <;> simp only [Var.failure, reduceCtorEq, iff_false, iff_true] at h ⊢
  · cases hc : checkFlagString raw with
    | ok b => simp [hc, thrown] at h
    | error e2 =>
      simp only [hc, thrown, Option.some.injEq] at h
      subst h
      rw [checkFlagString_error_kind raw _ hc]; simp
  · split at h
    · cases h; rfl
    · cases h
  · cases hc : checkFlagString raw with
    | ok b => simp [hc, thrown] at h
    | error e2 =>
      simp only [hc, thrown, Option.some.injEq] at h
      subst h
      rw [checkFlagString_error_kind raw _ hc]; simp
  · cases hc : gcThreshold raw with
    | ok b => simp [hc, thrown] at h
    | error e2 =>
      simp only [hc, thrown, Option.some.injEq] at h
      subst h
      rcases gcThreshold_error_kind raw _ hc with h | h <;> rw [h] <;> simp

/-- A relation on configurations that every single statement respects is respected
by a run of statements. -/
theorem runVars_rel (env : Env) (R : Config → Config → Prop)
    (hrefl : ∀ g, R g g) (htrans : ∀ g1 g2 g3, R g1 g2 → R g2 g3 → R g1 g3)
    (hstep : ∀ (v : Var) (g : Config), R g (v.load env g).config) :
    ∀ (vs : List Var) (o : Outcome), R o.config (runVars env vs o).config := by
  intro vs
  induction vs with
  | nil => intro o; exact hrefl _
  | cons v vs ih =>
    intro o
    rw [runVars_cons]
    refine htrans _ _ _ ?_ (ih _)
    cases he : o.error with
    | some e => rw [andThen_error o _ e he]; exact hrefl _
    | none =>
      have : o.andThen (v.load env) = v.load env o.config := by
        simp [Outcome.andThen, he]
      rw [this]
      exact hstep v o.config

/-! ## The first two variables -/

/-- When `SYMCC_NO_SYMBOLIC_INPUT` is rejected, only its statement runs. -/
theorem loadConfig_of_first_flag_rejected (env : Env) (g : Config) (e : RuntimeError)
    (h : Var.NO_SYMBOLIC_INPUT.failureIn env = some e) :
    loadConfig env g = Var.NO_SYMBOLIC_INPUT.load env g := by
  obtain ⟨heq, -⟩ := runVars_first_failure env [] [.SELECTIVE_INPUT, .OUTPUT_DIR,
    .INPUT_FILE, .LOG_FILE, .ENABLE_LINEARIZATION, .AFL_COVERAGE_MAP, .GC_THRESHOLD]
    Var.NO_SYMBOLIC_INPUT g e (by decide) (by simp) h
  exact heq

/-- When `SYMCC_NO_SYMBOLIC_INPUT` is not rejected and `SYMCC_SELECTIVE_INPUT` is,
the run fails with the error of the latter, which is `NoValidOffsets`. -/
theorem loadConfig_of_selective_rejected (env : Env) (g : Config) (e : RuntimeError)
    (hno : Var.NO_SYMBOLIC_INPUT.failureIn env = none)
    (hs : Var.SELECTIVE_INPUT.failureIn env = some e) :
    (loadConfig env g).error = some e ∧ e.kind = .NoValidOffsets := by
  obtain ⟨heq, herr⟩ := runVars_first_failure env [Var.NO_SYMBOLIC_INPUT]
    [.OUTPUT_DIR, .INPUT_FILE, .LOG_FILE, .ENABLE_LINEARIZATION, .AFL_COVERAGE_MAP,
      .GC_THRESHOLD] Var.SELECTIVE_INPUT g e (by decide)
    (by intro w hw; simp only [List.mem_singleton] at hw; rw [hw]; exact hno) hs
  have hall : loadConfig env g = runVars env ([Var.NO_SYMBOLIC_INPUT] ++
      Var.SELECTIVE_INPUT :: [.OUTPUT_DIR, .INPUT_FILE, .LOG_FILE, .ENABLE_LINEARIZATION,
        .AFL_COVERAGE_MAP, .GC_THRESHOLD]) ⟨g, none⟩ := rfl
  rw [hall, heq]
  refine ⟨herr, ?_⟩
  cases hev : env Var.SELECTIVE_INPUT.name with
  | none => simp [Var.failureIn, hev] at hs
  | some raw =>
    have : Var.SELECTIVE_INPUT.failure raw = some e := by
      simpa [Var.failureIn, hev] using hs
    exact (Var.failure_kind _ raw e this).mpr rfl

/-! ## The scanning loop as a recursion on the text -/

theorem scanOffsets_nil (fuel : Nat) (acc : Finset Nat) :
    scanOffsets fuel (StringStream.ofStr []) acc = acc := by
  cases fuel with
  | zero => rfl
  | succ fuel =>
    simp [scanOffsets, StringStream.extract, StringStream.ofStr, StringStream.good]

/-- After a successful extraction the stream holds the rest of the text, with
`eofbit` set exactly when nothing is left. -/
theorem extract_success_form (ss ss1 : StringStream) (n : Nat)
    (h : ss.extract = (ss1, some n)) : ss1 = ⟨ss1.buf, ss1.buf.isEmpty, false⟩ := by
  unfold StringStream.extract at h
  split at h
  · simp at h
  · split at h
    · simp at h
    · rename_i c cs hdrop
      simp only at h
      generalize (if c = '-' ∨ c = '+' then cs else c :: cs) = body at h
      by_cases hdig : body.takeWhile isdigit = []
      · simp [hdig] at h
      · rw [if_neg hdig] at h
        split at h
        · simp at h
        · simp only [Prod.mk.injEq, Option.some.injEq] at h
          rw [← h.1]

/-- The rest of one loop iteration, after the insertion: `peek`, and `ignore` when
a comma is next. -/
theorem scanOffsets_after_number (fuel : Nat) (rest : Str) (acc : Finset Nat) :
    (if (StringStream.peek ⟨rest, rest.isEmpty, false⟩).2 = some ','
      then scanOffsets fuel (StringStream.peek ⟨rest, rest.isEmpty, false⟩).1.ignore acc
      else scanOffsets fuel (StringStream.peek ⟨rest, rest.isEmpty, false⟩).1 acc)
      = scanOffsets fuel (StringStream.ofStr (afterComma rest)) acc := by
  cases rest with
  | nil =>
    simp only [StringStream.peek, StringStream.good, List.isEmpty_nil, Bool.not_true,
      Bool.false_and, Bool.not_false, if_true, reduceCtorEq, if_false, afterComma]
    rw [scanOffsets_stopped _ _ _ _ (by simp), scanOffsets_nil]
  | cons c cs =>
    by_cases hc : c = ','
    · subst hc
      simp [StringStream.peek, StringStream.good, StringStream.ignore, afterComma,
        StringStream.ofStr]
    · have hafter : afterComma (c :: cs) = c :: cs := by
        unfold afterComma
        split
        · rename_i heq
          simp only [List.cons.injEq] at heq
          exact absurd heq.1 hc
        · rfl
      simp [StringStream.peek, StringStream.good, hc, hafter, StringStream.ofStr]

/-- One iteration of the loop on a fresh stream, in terms of the numeric token at
the start of the text. -/
theorem scanOffsets_succ (fuel : Nat) (s : Str) (acc : Finset Nat) :
    scanOffsets (fuel + 1) (StringStream.ofStr s) acc =
      match numericToken s with
      | none => acc
      | some (n, rest) => scanOffsets fuel (StringStream.ofStr (afterComma rest)) (insert n acc) := by
  unfold numericToken
  rcases hex : (StringStream.ofStr s).extract with ⟨ss1, _ | n⟩
  · simp [scanOffsets, hex]
  · have hform := extract_success_form _ _ _ hex
    simp only [scanOffsets, hex]
    rw [hform]
    exact scanOffsets_after_number fuel ss1.buf (insert n acc)

theorem afterComma_length (s : Str) : (afterComma s).length ≤ s.length := by
  unfold afterComma
  split <;> simp

theorem numericToken_progress (s rest : Str) (n : Nat) (h : numericToken s = some (n, rest)) :
    (afterComma rest).length < s.length := by
  unfold numericToken at h
  rcases hex : (StringStream.ofStr s).extract with ⟨ss1, _ | m⟩
  · simp [hex] at h
  · simp only [hex, Option.some.injEq, Prod.mk.injEq] at h
    have hp := extract_progress _ _ _ hex
    have ha := afterComma_length rest
    have hb : rest.length = ss1.buf.length := by rw [← h.2]
    simp only [StringStream.ofStr] at hp
    omega

/-- The numbers already found do not influence the rest of the scan. -/
theorem scanOffsets_acc : ∀ (fuel : Nat) (ss : StringStream) (acc : Finset Nat),
    scanOffsets fuel ss acc = acc ∪ scanOffsets fuel ss ∅ := by
  intro fuel
  induction fuel with
  | zero => intro ss acc; simp [scanOffsets]
  | succ fuel ih =>
    intro ss acc
    unfold scanOffsets
    rcases hex : ss.extract with ⟨ss1, _ | i⟩
    · simp
    · simp only
      split
      · rw [ih _ (insert i acc), ih _ (insert i ∅)]
        ext x; simp only [Finset.mem_union, Finset.mem_insert, Finset.not_mem_empty]; tauto
      · rw [ih _ (insert i acc), ih _ (insert i ∅)]
        ext x; simp only [Finset.mem_union, Finset.mem_insert, Finset.not_mem_empty]; tauto

/-- A text without a leading numeric token gives the empty set. -/
theorem parse_of_no_token (s : Str) (h : numericToken s = none) :
    parse_selective_input_option s = ∅ := by
  unfold parse_selective_input_option
  rw [scanOffsets_succ, h]

/-- A text with a leading numeric token gives that number together with the result
for the text after the token and the comma that may follow it. -/
theorem parse_of_token (s rest : Str) (n : Nat) (h : numericToken s = some (n, rest)) :
    parse_selective_input_option s
      = insert n (parse_selective_input_option (afterComma rest)) := by
  have hlt := numericToken_progress s rest n h
  unfold parse_selective_input_option
  rw [scanOffsets_succ, h]
  simp only
  rw [scanOffsets_acc,
    scanOffsets_fuel_irrel s.length ((afterComma rest).length + 1) _ ∅
      (by simpa [StringStream.ofStr] using hlt) (by simp [StringStream.ofStr])]
  ext x
  simp only [Finset.mem_union, Finset.mem_insert, Finset.not_mem_empty]
  tauto

/-! ## Numeric tokens of particular texts -/

theorem numericToken_decimal (ws tail : Str) (n : Nat)
    (hws : ∀ c ∈ ws, isspace c = true) (hn : n ≤ SIZE_MAX)
    (htail : ∀ c ∈ tail.head?, isdigit c = false) :
    numericToken (ws ++ decimal n ++ tail) = some (n, tail) := by
  unfold numericToken
  rw [extract_decimal ws tail n hws hn htail]

/-- A numeral above `SIZE_MAX` is not a numeric token: the extraction fails. -/
theorem numericToken_overflow (ws tail : Str) (n : Nat)
    (hws : ∀ c ∈ ws, isspace c = true) (hn : SIZE_MAX < n)
    (htail : ∀ c ∈ tail.head?, isdigit c = false) :
    numericToken (ws ++ decimal n ++ tail) = none := by
  obtain ⟨hne, hdig, hval⟩ := decimal_spec n
  obtain ⟨d, ds, hd⟩ := List.exists_cons_of_ne_nil hne
  have hdd : isdigit d = true := hdig d (by simp [hd])
  have hskip : (ws ++ (decimal n ++ tail)).dropWhile isspace = decimal n ++ tail :=
    (takeWhile_run isspace ws (decimal n ++ tail) hws
      (by simp [hd, isdigit_not_isspace d hdd])).2
  have hrun := takeWhile_run isdigit (decimal n) tail hdig htail
  have hsign := isdigit_not_sign d hdd
  unfold numericToken
  simp only [StringStream.extract, StringStream.ofStr, StringStream.good, List.append_assoc,
    hskip]
  rw [hd] at hrun hval hne ⊢
  simp only [List.cons_append, Bool.not_false, Bool.and_self, Bool.not_true, Bool.false_eq_true,
    if_false, hsign]
  rw [← List.cons_append, hrun.1, hrun.2, hval]
  simp [hn]

/-- Whitespace followed by a character that is neither a digit nor a sign is not a
numeric token. -/
theorem numericToken_no_digit (ws rest : Str) (c : Char)
    (hws : ∀ d ∈ ws, isspace d = true) (hsp : isspace c = false)
    (hdig : isdigit c = false) (hsign : ¬ (c = '-' ∨ c = '+')) :
    numericToken (ws ++ c :: rest) = none := by
  have hskip : (ws ++ c :: rest).dropWhile isspace = c :: rest :=
    (takeWhile_run isspace ws (c :: rest) hws (by simp [hsp])).2
  unfold numericToken
  simp only [StringStream.extract, StringStream.ofStr, StringStream.good, hskip]
  simp [hsign, List.takeWhile, hdig]

theorem isspace_not_isdigit (c : Char) (h : isspace c = true) : isdigit c = false := by
  simp only [isdigit, isspace, decide_eq_true_eq, decide_eq_false_iff_not] at *
  omega

theorem isspace_ne_comma (c : Char) (h : isspace c = true) : c ≠ ',' := by
  rintro rfl
  simp [isspace] at h

theorem afterComma_of_ne (c : Char) (cs : Str) (h : c ≠ ',') :
    afterComma (c :: cs) = c :: cs := by
  unfold afterComma
  split
  · rename_i heq
    simp only [List.cons.injEq] at heq
    exact absurd heq.1 h
  · rfl

/-! ## Lists followed by more text -/

theorem offsetList_append (item : Str × Nat) (items : List (Str × Nat)) :
    ∀ pre : List (Str × Nat), pre ≠ [] →
      offsetList (pre ++ item :: items) = offsetList pre ++ ',' :: offsetList (item :: items) := by
  intro pre
  induction pre with
  | nil => intro h; exact absurd rfl h
  | cons p ps ih =>
    intro _
    obtain ⟨ws, n⟩ := p
    cases ps with
    | nil => simp [offsetList]
    | cons q qs =>
      have := ih (by simp)
      simp only [List.cons_append] at this ⊢
      simp only [offsetList, this, List.append_assoc, List.cons_append]

/-- The text of a list that starts with a numeral: whitespace, the numeral, and then
either nothing or a comma and the rest of the list. -/
theorem offsetList_cons (ws : Str) (n : Nat) (items : List (Str × Nat)) :
    ∃ tail : Str, offsetList ((ws, n) :: items) = ws ++ decimal n ++ tail ∧
      ∀ c ∈ tail.head?, isdigit c = false := by
  cases items with
  | nil => exact ⟨[], by simp [offsetList], by simp⟩
  | cons item items =>
    exact ⟨',' :: offsetList (item :: items), by simp [offsetList],
      by simp [comma_not_isdigit]⟩

/-- A well-formed list followed by text that does not start with a digit: the
numbers of the list, then whatever the scan finds in the rest. -/
theorem parse_offsetList_append : ∀ (items : List (Str × Nat)) (tail : Str),
    items ≠ [] →
    (∀ item ∈ items, ∀ c ∈ item.1, isspace c = true) →
    (∀ item ∈ items, item.2 < 2 ^ 64) →
    (∀ c ∈ tail.head?, isdigit c = false) →
    parse_selective_input_option (offsetList items ++ tail)
      = (items.map Prod.snd).toFinset ∪ parse_selective_input_option (afterComma tail) := by
  intro items
  induction items with
  | nil => intro tail h; exact absurd rfl h
  | cons item items ih =>
    intro tail _ hws hlt htail
    obtain ⟨ws, n⟩ := item
    have hw : ∀ c ∈ ws, isspace c = true := hws (ws, n) (by simp)
    have hn : n ≤ SIZE_MAX := by
      have := hlt (ws, n) (by simp)
      simp only [SIZE_MAX] at *
      omega
    cases items with
    | nil =>
      rw [show offsetList [(ws, n)] ++ tail = ws ++ decimal n ++ tail from rfl,
        parse_of_token _ tail n (numericToken_decimal ws tail n hw hn htail)]
      ext x
      simp only [List.map_cons, List.map_nil, List.toFinset_cons, List.toFinset_nil,
        Finset.mem_union, Finset.mem_insert, Finset.not_mem_empty]
      tauto
    | cons item2 items =>
      have hrec := ih tail (by simp) (fun it hit => hws it (by simp [hit]))
        (fun it hit => hlt it (by simp [hit])) htail
      have htext : offsetList ((ws, n) :: item2 :: items) ++ tail
          = ws ++ decimal n ++ (',' :: (offsetList (item2 :: items) ++ tail)) := by
        simp [offsetList]
      rw [htext, parse_of_token _ _ n (numericToken_decimal ws _ n hw hn
        (by simp [comma_not_isdigit]))]
      simp only [afterComma]
      rw [hrec]
      ext x
      simp only [List.map_cons, List.toFinset_cons, Finset.mem_union, Finset.mem_insert]
      tauto

/-- A list of numbers separated only by non-empty whitespace. -/
theorem parse_spacedList : ∀ (items : List (Str × Nat)),
    (∀ item ∈ items, ∀ c ∈ item.1, isspace c = true) →
    (∀ item ∈ items, item.2 < 2 ^ 64) →
    (∀ item ∈ items.tail, item.1 ≠ []) →
    parse_selective_input_option (spacedList items) = (items.map Prod.snd).toFinset := by
  intro items
  induction items with
  | nil =>
    intro _ _ _
    exact parse_of_no_token [] (by decide)
  | cons item items ih =>
    intro hws hlt hsep
    obtain ⟨ws, n⟩ := item
    have hw : ∀ c ∈ ws, isspace c = true := hws (ws, n) (by simp)
    have hn : n ≤ SIZE_MAX := by
      have := hlt (ws, n) (by simp)
      simp only [SIZE_MAX] at *
      omega
    have hrec := ih (fun it hit => hws it (by simp [hit]))
      (fun it hit => hlt it (by simp [hit]))
      (fun it hit => hsep it (by
        simp only [List.tail_cons]
        exact List.mem_of_mem_tail hit))
    have hhead : ∀ c ∈ (spacedList items).head?, isspace c = true := by
      cases items with
      | nil => simp [spacedList]
      | cons item2 items =>
        obtain ⟨ws2, n2⟩ := item2
        have hne : ws2 ≠ [] := hsep (ws2, n2) (by simp)
        obtain ⟨d, ds, hd⟩ := List.exists_cons_of_ne_nil hne
        have hsp : isspace d = true := hws (ws2, n2) (by simp) d (by simp [hd])
        simp [spacedList, hd, hsp]
    have hafter : afterComma (spacedList items) = spacedList items := by
      cases hs : spacedList items with
      | nil => rfl
      | cons c cs =>
        exact afterComma_of_ne c cs (isspace_ne_comma c (hhead c (by simp [hs])))
    rw [show spacedList ((ws, n) :: items) = ws ++ decimal n ++ spacedList items from rfl,
      parse_of_token _ _ n (numericToken_decimal ws _ n hw hn
        (fun c hc => isspace_not_isdigit c (hhead c hc))), hafter, hrec]
    simp

/-- The loop computes a result of the scanning algorithm, for a text of any length. -/
theorem scanResult_parse : ∀ (len : Nat) (s : Str), s.length = len →
    ScanResult s (parse_selective_input_option s) := by
  intro len
  induction len using Nat.strong_induction_on with
  | _ len ih =>
    intro s hlen
    cases htok : numericToken s with
    | none =>
      rw [parse_of_no_token s htok]
      exact ScanResult.stop s htok
    | some token =>
      obtain ⟨n, rest⟩ := token
      rw [parse_of_token s rest n htok]
      have hlt := numericToken_progress s rest n htok
      exact ScanResult.token s n rest _ htok
        (ih (afterComma rest).length (by omega) (afterComma rest) rfl)

/-! ## `std::stoul` on negative numerals -/

/-- A minus sign followed by a decimal numeral within range: the value is negated in
the unsigned type. -/
theorem stoul_neg_decimal (d : Nat) (hd : d ≤ SIZE_MAX) :
    stoul ('-' :: decimal d) = .value ((2 ^ 64 - d) % 2 ^ 64) := by
  obtain ⟨hne, hdig, hval⟩ := decimal_spec d
  have hrun : (decimal d).takeWhile isdigit = decimal d := by
    have := (takeWhile_run isdigit (decimal d) [] hdig (by simp)).1
    simpa using this
  have hskip : ('-' :: decimal d).dropWhile isspace = '-' :: decimal d := by
    rw [List.dropWhile_cons_of_neg (by decide)]
  unfold stoul
  rw [hskip]
  simp only [true_or, if_true, hrun, if_neg hne, hval, decide_True]
  rw [if_neg (Nat.not_lt.mpr hd)]

/-! ## Running the loader again -/

/-- Whether a statement throws, and what, depends on the environment only. -/
theorem Var.load_error_indep (env : Env) (v : Var) (g h : Config) :
    (v.load env g).error = (v.load env h).error := by
  cases v <;>
    simp only [Var.load, loadFullyConcrete, loadSelectiveInput, loadOutputDir,
      loadInputFile, loadLogFile, loadPruning, loadAflCoverageMap,
      loadGarbageCollectionThreshold] <;>
    (repeat' split) <;> rfl

/-- A statement changes nothing in a configuration whose fields for its variable
already hold what the statement wrote in an earlier run. -/
theorem Var.load_fixed (env : Env) (v : Var) (g h : Config)
    (hh : v.unchanged (v.load env g).config h) : (v.load env h).config = h := by
  cases h
  cases v <;>
    simp only [Var.load, Var.unchanged, loadFullyConcrete, loadSelectiveInput, loadOutputDir,
      loadInputFile, loadLogFile, loadPruning, loadAflCoverageMap,
      loadGarbageCollectionThreshold] at hh ⊢ <;>
    (repeat' split) <;> simp_all

/-- A configuration that agrees with the result of a run on the fields of the
variables of the list is left as it is by a second run, which ends the same way. -/
theorem runVars_fixed (env : Env) : ∀ (vs : List Var) (g h : Config), vs.Nodup →
    (∀ w ∈ vs, w.unchanged (runVars env vs ⟨g, none⟩).config h) →
    runVars env vs ⟨h, none⟩ = ⟨h, (runVars env vs ⟨g, none⟩).error⟩ := by
  intro vs
  induction vs with
  | nil => intro g h _ _; rfl
  | cons v vs ih =>
    intro g h hnd hagree
    have hv : v ∉ vs := (List.nodup_cons.mp hnd).1
    have herr := Var.load_error_indep env v h g
    rw [runVars_cons, runVars_cons, andThen_ok, andThen_ok] at *
    cases he : (v.load env g).error with
    | some e =>
      have hstop := runVars_error env vs (v.load env g) e he
      rw [hstop] at hagree ⊢
      have hfix := Var.load_fixed env v g h (hagree v (by simp))
      rw [he] at herr
      rw [runVars_error env vs (v.load env h) e herr, he]
      cases hl : v.load env h with
      | mk cfg er =>
        rw [hl] at hfix herr
        simp only at hfix herr
        rw [hfix, herr]
    | none =>
      have hout := Outcome.eq_of_error_none _ he
      rw [hout] at hagree ⊢
      have hvfix : v.unchanged (v.load env g).config h :=
        Var.unchanged_trans v _ _ _
          (runVars_unchanged env v vs ⟨(v.load env g).config, none⟩ (Or.inl hv))
          (hagree v (by simp))
      have hfix := Var.load_fixed env v g h hvfix
      rw [he] at herr
      have hload : v.load env h = ⟨h, none⟩ := by
        cases hl : v.load env h with
        | mk cfg er =>
          rw [hl] at hfix herr
          simp only at hfix herr
          rw [hfix, herr]
      rw [hload]
      exact ih (v.load env g).config h (List.nodup_cons.mp hnd).2
        (fun w hw => hagree w (by simp [hw]))

/-! ## Lowercasing -/

/-- On a character outside `'A'..'Z'` the table of capital letters has no entry. -/
theorem asciiLowerChar_of_not_upper (c : Char) (h : ¬ (65 ≤ c.toNat ∧ c.toNat ≤ 90)) :
    asciiLowerChar c = c := by
  have hnone : ("ABCDEFGHIJKLMNOPQRSTUVWXYZ".toList.zip
      "abcdefghijklmnopqrstuvwxyz".toList).lookup c = none := by
    rw [List.lookup_eq_none_iff]
    intro p hp
    have hrange : ∀ q ∈ "ABCDEFGHIJKLMNOPQRSTUVWXYZ".toList.zip
        "abcdefghijklmnopqrstuvwxyz".toList, 65 ≤ q.1.toNat ∧ q.1.toNat ≤ 90 := by decide
    have hq := hrange p hp
    simp only [bne_iff_ne, ne_eq]
    intro heq
    rw [← heq] at hq
    exact h hq
  unfold asciiLowerChar
  rw [hnone]
  rfl

/-- The map `tolower` of the "C" locale is ASCII lowercasing. -/
theorem tolower_eq_asciiLowerChar (c : Char) : tolower c = asciiLowerChar c := by
  by_cases h : 65 ≤ c.toNat ∧ c.toNat ≤ 90
  · have hc : c = Char.ofNat c.toNat := (Char.ofNat_toNat c).symm
    generalize c.toNat = k at h hc
    obtain ⟨h1, h2⟩ := h
    interval_cases k <;> (subst hc; decide)
  · rw [asciiLowerChar_of_not_upper c h]
    simp [tolower, h]

/-- The `std::transform` of `checkFlagString` is ASCII lowercasing of the string. -/
theorem lowercase_eq_asciiLower (s : Str) : lowercase s = asciiLower s := by
  unfold lowercase asciiLower
  exact List.map_congr_left (fun c _ => tolower_eq_asciiLowerChar c)

/-! ## Claims on `checkFlagString` -/

/-- C1: `checkFlagString` is a three-way classification of the ASCII-lowercased
input: for every string `s` it returns true exactly when the ASCII lowercasing of `s`
is one of "1", "on", "yes"; it returns false exactly when that is one of "", "0",
"off", "no"; and for every other `s`, and only then, it throws `InvalidFlagValue`
with the message "Unknown flag value " followed by the ASCII lowercasing of `s`.
Mixed-case inputs are evaluated alongside. -/
theorem checkFlagString_classification (s : Str) :
    (checkFlagString s = .ok true
      ↔ asciiLower s ∈ ["1".toList, "on".toList, "yes".toList]) ∧
    (checkFlagString s = .ok false
      ↔ asciiLower s ∈ ["".toList, "0".toList, "off".toList, "no".toList]) ∧
    (checkFlagString s
        = .error ⟨.InvalidFlagValue, "Unknown flag value ".toList ++ asciiLower s⟩
      ↔ asciiLower s ∉ ["1".toList, "on".toList, "yes".toList] ∧
        asciiLower s ∉ ["".toList, "0".toList, "off".toList, "no".toList]) ∧
    asciiLower "A1-Zz@[ON]_Yes".toList = "a1-zz@[on]_yes".toList ∧
    checkFlagString "YES".toList = .ok true ∧
    checkFlagString "oN".toList = .ok true ∧
    checkFlagString "1".toList = .ok true ∧
    checkFlagString "No".toList = .ok false ∧
    checkFlagString "OFF".toList = .ok false ∧
    checkFlagString "".toList = .ok false ∧
    checkFlagString "Maybe".toList
      = .error ⟨.InvalidFlagValue, "Unknown flag value maybe".toList⟩ ∧
    checkFlagString "ONE".toList
      = .error ⟨.InvalidFlagValue, "Unknown flag value one".toList⟩ := by
  have main : (checkFlagString s = .ok true
        ↔ asciiLower s ∈ ["1".toList, "on".toList, "yes".toList]) ∧
      (checkFlagString s = .ok false
        ↔ asciiLower s ∈ ["".toList, "0".toList, "off".toList, "no".toList]) ∧
      (checkFlagString s
          = .error ⟨.InvalidFlagValue, "Unknown flag value ".toList ++ asciiLower s⟩
        ↔ asciiLower s ∉ ["1".toList, "on".toList, "yes".toList] ∧
          asciiLower s ∉ ["".toList, "0".toList, "off".toList, "no".toList]) := by
    unfold checkFlagString
    simp only [List.mem_cons, List.mem_singleton, List.not_mem_nil, or_false]
    rw [lowercase_eq_asciiLower]
    generalize asciiLower s = v
    have hdisj : (v = "1".toList ∨ v = "on".toList ∨ v = "yes".toList) →
        ¬ (v = "".toList ∨ v = "0".toList ∨ v = "off".toList ∨ v = "no".toList) := by
      rintro (h | h | h) <;> rw [h] <;> decide
    by_cases ht : v = "1".toList ∨ v = "on".toList ∨ v = "yes".toList
    · rw [if_pos ht]
      exact ⟨⟨fun _ => ht, fun _ => rfl⟩,
        ⟨fun h => (by cases h), fun h => absurd h (hdisj ht)⟩,
        ⟨fun h => (by cases h), fun h => absurd ht h.1⟩⟩
    · rw [if_neg ht]
      by_cases hf : v = "".toList ∨ v = "0".toList ∨ v = "off".toList ∨ v = "no".toList
      · rw [if_pos (show v = [] ∨ v = "0".toList ∨ v = "off".toList ∨ v = "no".toList from hf)]
        exact ⟨⟨fun h => (by cases h), fun h => absurd h ht⟩,
          ⟨fun _ => hf, fun _ => rfl⟩,
          ⟨fun h => (by cases h), fun h => absurd hf h.2⟩⟩
      · rw [if_neg (show ¬ (v = [] ∨ v = "0".toList ∨ v = "off".toList ∨ v = "no".toList) from hf)]
        exact ⟨⟨fun h => (by cases h), fun h => absurd h ht⟩,
          ⟨fun h => (by cases h), fun h => absurd h hf⟩,
          ⟨fun _ => ⟨ht, hf⟩, fun _ => rfl⟩⟩
  exact ⟨main.1, main.2.1, main.2.2, by decide, rfl, rfl, rfl, rfl, rfl, rfl, rfl, rfl⟩

/-- C2: `checkFlagString` is case-insensitive: two strings with the same lowercase
form give the same outcome, the same boolean or the same exception; and "ON", "On",
"on" give true while "OFF", "off" give false. -/
theorem checkFlagString_case_insensitive (s t : Str) (h : lowercase s = lowercase t) :
    checkFlagString s = checkFlagString t ∧
    checkFlagString "ON".toList = .ok true ∧
    checkFlagString "On".toList = .ok true ∧
    checkFlagString "on".toList = .ok true ∧
    checkFlagString "OFF".toList = .ok false ∧
    checkFlagString "off".toList = .ok false := by
  refine ⟨?_, rfl, rfl, rfl, rfl, rfl⟩
  unfold checkFlagString
  simp only [h]

theorem checkFlagString_case_insensitive_witness :
    lowercase "YeS".toList = lowercase "yEs".toList ∧
    checkFlagString "YeS".toList = checkFlagString "yEs".toList ∧
    checkFlagString "YeS".toList = .ok true :=
  ⟨by decide,
    (checkFlagString_case_insensitive "YeS".toList "yEs".toList (by decide)).1, rfl⟩

/-! ## Claims on `parse_selective_input_option` -/

/-- C3: for every non-empty list of naturals below 2^64, written in decimal and joined
by single commas, with any amount of whitespace before each number,
`parse_selective_input_option` returns exactly the set of the listed values. -/
theorem parse_selective_input_option_wellformed (items : List (Str × Nat))
    (_hne : items ≠ [])
    (hws : ∀ item ∈ items, ∀ c ∈ item.1, isspace c = true)
    (hlt : ∀ item ∈ items, item.2 < 2 ^ 64) :
    parse_selective_input_option (offsetList items) = (items.map Prod.snd).toFinset := by
  have := scanOffsets_offsetList items ((offsetList items).length + 1) ∅ hws hlt (by omega)
  simpa [parse_selective_input_option] using this

theorem parse_selective_input_option_wellformed_witness :
    offsetList [([], 2), (" \t".toList, 2), ([], 1)] = "2, \t2,1".toList ∧
    parse_selective_input_option "2, \t2,1".toList = {1, 2} ∧
    parse_selective_input_option "0,1,2".toList = {0, 1, 2} ∧
    parse_selective_input_option "2,2,1".toList = {1, 2} := by
  have h := parse_selective_input_option_wellformed [([], 2), (" \t".toList, 2), ([], 1)]
    (by simp) (by decide) (by decide)
  have e : offsetList [([], 2), (" \t".toList, 2), ([], 1)] = "2, \t2,1".toList := by decide
  refine ⟨e, ?_, by decide, by decide⟩
  rw [← e, h]
  decide

/-! ## Claims on `loadConfig` -/

/-- C4: when `SYMCC_SELECTIVE_INPUT` is present with raw value `r` and no earlier
variable fails, `loadConfig` fails with `NoValidOffsets` if and only if
`parse_selective_input_option r` is empty, and the message then contains `r`
unchanged; otherwise `offsets_to_symbolize` is set to the parsed set and
`selective_symbolization_enabled` to true. -/
theorem loadConfig_selective_input (env : Env) (c : Config) (r : Str)
    (hr : env "SYMCC_SELECTIVE_INPUT" = some r)
    (hearlier : ∀ w : Var, w.rank < Var.SELECTIVE_INPUT.rank → w.failureIn env = none) :
    ((∃ e, (loadConfig env c).error = some e ∧ e.kind = .NoValidOffsets)
      ↔ parse_selective_input_option r = ∅) ∧
    (parse_selective_input_option r = ∅ →
      ∃ e, (loadConfig env c).error = some e ∧ e.kind = .NoValidOffsets ∧
        e.what = "Selective symbolization was enabled, but no valid offsets ".toList
          ++ "specified (original parameter: ".toList ++ r ++ ")".toList ∧
        r <:+: e.what) ∧
    (parse_selective_input_option r ≠ ∅ →
      (loadConfig env c).config.offsets_to_symbolize = parse_selective_input_option r ∧
      (loadConfig env c).config.selective_symbolization_enabled = true) := by
  have hpre : ∀ w ∈ [Var.NO_SYMBOLIC_INPUT], w.failureIn env = none := by
    intro w hw
    simp only [List.mem_singleton] at hw
    subst hw
    exact hearlier _ (by decide)
  rw [loadConfig_eq_runVars]
  by_cases hp : parse_selective_input_option r = ∅
  · have hv : Var.SELECTIVE_INPUT.failureIn env = some (noValidOffsets r) := by
      simp [Var.failureIn, Var.name, hr, Var.failure, hp]
    obtain ⟨heq, herr⟩ := runVars_first_failure env [Var.NO_SYMBOLIC_INPUT]
      [.OUTPUT_DIR, .INPUT_FILE, .LOG_FILE, .ENABLE_LINEARIZATION, .AFL_COVERAGE_MAP,
        .GC_THRESHOLD] Var.SELECTIVE_INPUT c _ (by decide) hpre hv
    have hall : Var.all = [Var.NO_SYMBOLIC_INPUT] ++ Var.SELECTIVE_INPUT ::
      [.OUTPUT_DIR, .INPUT_FILE, .LOG_FILE, .ENABLE_LINEARIZATION, .AFL_COVERAGE_MAP,
        .GC_THRESHOLD] := rfl
    rw [hall, heq, herr]
    have hfound : ∃ e, some (noValidOffsets r) = some e ∧ e.kind = .NoValidOffsets ∧
        e.what = "Selective symbolization was enabled, but no valid offsets ".toList
          ++ "specified (original parameter: ".toList ++ r ++ ")".toList ∧
        r <:+: e.what :=
      ⟨noValidOffsets r, rfl, rfl, rfl, ⟨_, _, rfl⟩⟩
    refine ⟨⟨fun _ => hp, fun _ => ?_⟩, fun _ => hfound, fun h => absurd hp h⟩
    obtain ⟨e, h1, h2, -⟩ := hfound
    exact ⟨e, h1, h2⟩
  · have hv : Var.SELECTIVE_INPUT.failureIn env = none := by
      simp [Var.failureIn, Var.name, hr, Var.failure, hp]
    have hok : ∀ w ∈ [Var.NO_SYMBOLIC_INPUT, Var.SELECTIVE_INPUT], w.failureIn env = none := by
      intro w hw
      simp only [List.mem_cons, List.mem_singleton, List.not_mem_nil, or_false] at hw
      rcases hw with rfl | rfl
      · exact hearlier _ (by decide)
      · exact hv
    obtain ⟨h1, h2⟩ := runVars_ok env [Var.NO_SYMBOLIC_INPUT, Var.SELECTIVE_INPUT] c
      (by decide) hok
    have hload := h2 Var.SELECTIVE_INPUT (by simp) r hr
    have hall : Var.all = [Var.NO_SYMBOLIC_INPUT, Var.SELECTIVE_INPUT] ++
      [.OUTPUT_DIR, .INPUT_FILE, .LOG_FILE, .ENABLE_LINEARIZATION, .AFL_COVERAGE_MAP,
        .GC_THRESHOLD] := rfl
    rw [hall, runVars_append]
    have hfinal := Var.loaded_of_unchanged _ r _ _
      (runVars_unchanged env Var.SELECTIVE_INPUT
        [.OUTPUT_DIR, .INPUT_FILE, .LOG_FILE, .ENABLE_LINEARIZATION, .AFL_COVERAGE_MAP,
          .GC_THRESHOLD] _ (Or.inl (by decide))) hload
    refine ⟨⟨?_, fun h => absurd h hp⟩, fun h => absurd h hp, fun _ => hfinal⟩
    rintro ⟨e, he, hk⟩
    rw [Outcome.eq_of_error_none _ h1] at he
    obtain ⟨u, hu, hf⟩ := runVars_error_source env _ _ e he
    have hfr : ∃ raw, u.failure raw = some e := by
      cases hev : env u.name with
      | none => simp [Var.failureIn, hev] at hf
      | some raw => exact ⟨raw, by simpa [Var.failureIn, hev] using hf⟩
    obtain ⟨raw, hraw⟩ := hfr
    have := (Var.failure_kind u raw e hraw).mp hk
    subst this
    exact absurd hu (by decide)

theorem loadConfig_selective_input_witness :
    (loadConfig (envOf [("SYMCC_NO_SYMBOLIC_INPUT", "yes"), ("SYMCC_SELECTIVE_INPUT", "3,x"),
        ("SYMCC_GC_THRESHOLD", "many")]) (defaultConfig 0)).config.offsets_to_symbolize = {3} ∧
    (loadConfig (envOf [("SYMCC_NO_SYMBOLIC_INPUT", "yes"), ("SYMCC_SELECTIVE_INPUT", "3,x"),
        ("SYMCC_GC_THRESHOLD", "many")])
      (defaultConfig 0)).config.selective_symbolization_enabled = true := by
  have h := (loadConfig_selective_input
    (envOf [("SYMCC_NO_SYMBOLIC_INPUT", "yes"), ("SYMCC_SELECTIVE_INPUT", "3,x"),
      ("SYMCC_GC_THRESHOLD", "many")]) (defaultConfig 0) "3,x".toList (by decide)
    (by decide)).2.2 (by decide)
  have hp : parse_selective_input_option "3,x".toList = {3} := by decide
  rw [hp] at h
  exact h

/-- C5: the GC-threshold parser is exact on decimal numerals up to the 64-bit bound:
when `SYMCC_GC_THRESHOLD` holds the decimal numeral of `n` and no earlier variable
fails, then for `n ≤ 2^64 - 1` the load succeeds with `garbageCollectionThreshold = n`,
and for `n ≥ 2^64` it fails with `NumericOutOfRange`. -/
theorem loadConfig_gc_threshold_decimal (env : Env) (c : Config) (n : Nat)
    (hgc : env "SYMCC_GC_THRESHOLD" = some (decimal n))
    (hearlier : ∀ w : Var, w.rank < Var.GC_THRESHOLD.rank → w.failureIn env = none) :
    (n ≤ 2 ^ 64 - 1 → (loadConfig env c).error = none ∧
      (loadConfig env c).config.garbageCollectionThreshold = n) ∧
    (2 ^ 64 ≤ n → ∃ e, (loadConfig env c).error = some e ∧ e.kind = .NumericOutOfRange) := by
  rw [loadConfig_eq_runVars]
  constructor
  · intro hn
    have hle : n ≤ SIZE_MAX := hn
    have hparse : gcThreshold (decimal n) = .ok n := by
      simp [gcThreshold, stoul_decimal, hle]
    have hv : Var.GC_THRESHOLD.failureIn env = none := by
      simp [Var.failureIn, Var.name, hgc, Var.failure, hparse, thrown]
    have hok : ∀ w ∈ Var.all, w.failureIn env = none := by
      intro w _
      by_cases hw : w.rank < Var.GC_THRESHOLD.rank
      · exact hearlier w hw
      · have : w = Var.GC_THRESHOLD := by
          cases w <;> simp [Var.rank] at hw ⊢
        rw [this]; exact hv
    obtain ⟨h1, h2⟩ := runVars_ok env Var.all c Var.all_nodup hok
    refine ⟨h1, ?_⟩
    have hl := h2 Var.GC_THRESHOLD (by decide) (decimal n) hgc
    simp only [Var.loaded, hparse, Except.ok.injEq] at hl
    exact hl.symm
  · intro hn
    have hgt : ¬ n ≤ SIZE_MAX := by
      simp only [SIZE_MAX]; omega
    have hparse : gcThreshold (decimal n) = .error ⟨.NumericOutOfRange,
        "The GC threshold must be between 0 and ".toList ++ decimal SIZE_MAX⟩ := by
      simp [gcThreshold, stoul_decimal, hgt]
    have hv : Var.GC_THRESHOLD.failureIn env = some ⟨.NumericOutOfRange,
        "The GC threshold must be between 0 and ".toList ++ decimal SIZE_MAX⟩ := by
      simp [Var.failureIn, Var.name, hgc, Var.failure, hparse, thrown]
    have hpre : ∀ w ∈ [Var.NO_SYMBOLIC_INPUT, Var.SELECTIVE_INPUT, Var.OUTPUT_DIR,
        Var.INPUT_FILE, Var.LOG_FILE, Var.ENABLE_LINEARIZATION, Var.AFL_COVERAGE_MAP],
        w.failureIn env = none := by
      intro w hw
      apply hearlier
      revert hw
      cases w <;> decide
    obtain ⟨heq, herr⟩ := runVars_first_failure env _ [] Var.GC_THRESHOLD c _
      (by decide) hpre hv
    have hall : Var.all = [Var.NO_SYMBOLIC_INPUT, Var.SELECTIVE_INPUT, Var.OUTPUT_DIR,
        Var.INPUT_FILE, Var.LOG_FILE, Var.ENABLE_LINEARIZATION, Var.AFL_COVERAGE_MAP]
        ++ Var.GC_THRESHOLD :: [] := rfl
    rw [hall, heq, herr]
    exact ⟨_, rfl, rfl⟩

theorem loadConfig_gc_threshold_decimal_witness :
    (loadConfig (envOf [("SYMCC_GC_THRESHOLD", "18446744073709551615")])
      (defaultConfig 0)).error = none ∧
    (loadConfig (envOf [("SYMCC_GC_THRESHOLD", "18446744073709551615")])
      (defaultConfig 0)).config.garbageCollectionThreshold = 18446744073709551615 ∧
    ∃ e, (loadConfig (envOf [("SYMCC_GC_THRESHOLD", "18446744073709551616")])
      (defaultConfig 0)).error = some e ∧ e.kind = .NumericOutOfRange :=
  ⟨((loadConfig_gc_threshold_decimal
      (envOf [("SYMCC_GC_THRESHOLD", "18446744073709551615")]) (defaultConfig 0)
      18446744073709551615 (by decide) (by decide)).1 (by decide)).1,
    ((loadConfig_gc_threshold_decimal
      (envOf [("SYMCC_GC_THRESHOLD", "18446744073709551615")]) (defaultConfig 0)
      18446744073709551615 (by decide) (by decide)).1 (by decide)).2,
    (loadConfig_gc_threshold_decimal
      (envOf [("SYMCC_GC_THRESHOLD", "18446744073709551616")]) (defaultConfig 0)
      18446744073709551616 (by decide) (by decide)).2 (by decide)⟩

/-- C6: the GC-threshold parser fails with `InvalidNumericFormat` if and only if the
string has no convertible leading integer (after optional whitespace and an optional
sign there is no decimal digit), as for "notanumber" and ""; every string that does
start with such a numeral is accepted or fails with `NumericOutOfRange`. -/
theorem gcThreshold_invalid_format (s : Str) :
    ((∃ e, gcThreshold s = .error e ∧ e.kind = .InvalidNumericFormat)
      ↔ ¬ LeadingNumeral s) ∧
    (LeadingNumeral s → (∃ n, gcThreshold s = .ok n) ∨
      ∃ e, gcThreshold s = .error e ∧ e.kind = .NumericOutOfRange) ∧
    gcThreshold "notanumber".toList = .error ⟨.InvalidNumericFormat,
      "Can't convert notanumber to an integer".toList⟩ ∧
    gcThreshold "".toList = .error ⟨.InvalidNumericFormat,
      "Can't convert  to an integer".toList⟩ := by
  refine ⟨(gcThreshold_invalid_iff s).trans (stoul_invalid_iff s), ?_, rfl, rfl⟩
  intro hl
  have hs : stoul s ≠ .invalid_argument := fun h => (stoul_invalid_iff s).mp h hl
  unfold gcThreshold
  cases hst : stoul s with
  | value n => exact Or.inl ⟨n, rfl⟩
  | invalid_argument => exact absurd hst hs
  | out_of_range => exact Or.inr ⟨_, rfl, rfl⟩

/-- C7, counterexample: from the default configuration a run with
`SYMCC_SELECTIVE_INPUT=1` succeeds and enables selective symbolization; a second run
with `SYMCC_SELECTIVE_INPUT=abc` stores the empty set before it throws, and leaves
selective symbolization enabled with no offsets. -/
theorem invariant_lost_by_failed_second_run :
    (defaultConfig 0).invariant ∧
    (loadConfig (envOf [("SYMCC_SELECTIVE_INPUT", "1")]) (defaultConfig 0)).error = none ∧
    (loadConfig (envOf [("SYMCC_SELECTIVE_INPUT", "1")]) (defaultConfig 0)).config.invariant ∧
    ¬ (loadConfig (envOf [("SYMCC_SELECTIVE_INPUT", "abc")])
        (loadConfig (envOf [("SYMCC_SELECTIVE_INPUT", "1")])
          (defaultConfig 0)).config).config.invariant := by
  decide

/-- One run keeps the invariant when `SYMCC_SELECTIVE_INPUT` is not rejected or
selective symbolization is not yet enabled. -/
theorem loadConfig_invariant_accepted (env : Env) (g : Config) (hinv : g.invariant)
    (hsel : g.selective_symbolization_enabled = true →
      Var.SELECTIVE_INPUT.failureIn env = none) :
    (loadConfig env g).config.invariant := by
  have key := runVars_rel env
    (fun g g' => (g.invariant ∧ (g.selective_symbolization_enabled = true →
        Var.SELECTIVE_INPUT.failureIn env = none)) →
      (g'.invariant ∧ (g'.selective_symbolization_enabled = true →
        Var.SELECTIVE_INPUT.failureIn env = none)))
    (fun _ h => h) (fun _ _ _ h12 h23 h => h23 (h12 h))
    (by
      intro v g ⟨hi, hc⟩
      by_cases hv : v = Var.SELECTIVE_INPUT
      · subst hv
        simp only [Var.load, loadSelectiveInput, getenv]
        cases hev : env "SYMCC_SELECTIVE_INPUT" with
        | none => exact ⟨hi, hc⟩
        | some r =>
          simp only
          split
          · rename_i hcard
            have hempty : parse_selective_input_option r = ∅ := by
              simpa [Finset.card_eq_zero] using hcard
            have hfail : Var.SELECTIVE_INPUT.failureIn env ≠ none := by
              simp [Var.failureIn, Var.name, hev, Var.failure, hempty]
            refine ⟨fun h => absurd (hc h) hfail, fun h => hc h⟩
          · rename_i hcard
            have hne : parse_selective_input_option r ≠ ∅ := by
              simpa [Finset.card_eq_zero] using hcard
            refine ⟨fun _ => Finset.nonempty_iff_ne_empty.mpr hne, fun _ => ?_⟩
            simp [Var.failureIn, Var.name, hev, Var.failure, hne]
      · have hu := Var.load_unchanged env v Var.SELECTIVE_INPUT g
          (Or.inl (fun h => hv h.symm))
        simp only [Var.unchanged] at hu
        simp only [Config.invariant, hu.1, hu.2]
        exact ⟨hi, hc⟩)
    Var.all ⟨g, none⟩
  rw [loadConfig_eq_runVars]
  exact (key ⟨hinv, hsel⟩).1

/-- One run keeps the invariant, unless it starts with selective symbolization
enabled and fails with `NoValidOffsets`. -/
theorem loadConfig_invariant_step (env : Env) (g : Config) (hinv : g.invariant)
    (hsel : g.selective_symbolization_enabled = true →
      ∀ e, (loadConfig env g).error = some e → e.kind ≠ .NoValidOffsets) :
    (loadConfig env g).config.invariant := by
  cases hno : Var.NO_SYMBOLIC_INPUT.failureIn env with
  | some e0 =>
    rw [loadConfig_of_first_flag_rejected env g e0 hno]
    have hu := Var.load_unchanged env Var.NO_SYMBOLIC_INPUT Var.SELECTIVE_INPUT g
      (Or.inl (by decide))
    simp only [Var.unchanged] at hu
    simp only [Config.invariant, hu.1, hu.2]
    exact hinv
  | none =>
    refine loadConfig_invariant_accepted env g hinv (fun h => ?_)
    cases hs : Var.SELECTIVE_INPUT.failureIn env with
    | none => rfl
    | some e =>
      obtain ⟨he, hk⟩ := loadConfig_of_selective_rejected env g e hno hs
      exact absurd hk (hsel h e he)

/-- C7 (amended): the invariant "selective symbolization enabled implies a non-empty
offset set" holds for the default configuration and for every configuration reached
from it by any number of `loadConfig` runs, each under an arbitrary environment and
whether it succeeds or fails, as long as no run that starts with selective
symbolization enabled fails with `NoValidOffsets`. -/
theorem reachable_invariant (gcDefault : Nat) (g : Config) (h : Reachable gcDefault g) :
    g.invariant := by
  induction h with
  | start => intro hsel; cases hsel
  | run env g _ hsel ih => exact loadConfig_invariant_step env g ih hsel

theorem reachable_invariant_witness :
    (loadConfig (envOf [("SYMCC_NO_SYMBOLIC_INPUT", "maybe"), ("SYMCC_SELECTIVE_INPUT", "abc")])
      (loadConfig (envOf [("SYMCC_SELECTIVE_INPUT", "1")])
        (defaultConfig 0)).config).config.invariant :=
  reachable_invariant 0 _
    (Reachable.run _ _ (Reachable.run _ _ Reachable.start (fun h => by cases h))
      (fun _ e he => by
        have herr : (loadConfig
            (envOf [("SYMCC_NO_SYMBOLIC_INPUT", "maybe"), ("SYMCC_SELECTIVE_INPUT", "abc")])
            (loadConfig (envOf [("SYMCC_SELECTIVE_INPUT", "1")]) (defaultConfig 0)).config).error
            = some ⟨.InvalidFlagValue, "Unknown flag value maybe".toList⟩ := by decide
        rw [herr] at he
        cases he
        decide))

/-- C8: absence property: for every environment and every starting configuration,
the fields of a variable that is not present in the environment have the same values
after `loadConfig` as before it, on success and on failure alike; so starting from
the default configuration they equal their defaults. -/
theorem loadConfig_absent_unchanged (env : Env) (c : Config) (v : Var)
    (h : env v.name = none) :
    v.unchanged c (loadConfig env c).config ∧
    ∀ gcDefault, v.unchanged (defaultConfig gcDefault)
      (loadConfig env (defaultConfig gcDefault)).config :=
  ⟨runVars_unchanged env v Var.all ⟨c, none⟩ (Or.inr h),
    fun d => runVars_unchanged env v Var.all ⟨defaultConfig d, none⟩ (Or.inr h)⟩

theorem loadConfig_absent_unchanged_witness :
    (loadConfig (envOf [("SYMCC_NO_SYMBOLIC_INPUT", "maybe"), ("SYMCC_LOG_FILE", "log")])
        (defaultConfig 7)).config.offsets_to_symbolize = ∅ ∧
    (loadConfig (envOf [("SYMCC_NO_SYMBOLIC_INPUT", "maybe"), ("SYMCC_LOG_FILE", "log")])
        (defaultConfig 7)).config.selective_symbolization_enabled = false :=
  (loadConfig_absent_unchanged
    (envOf [("SYMCC_NO_SYMBOLIC_INPUT", "maybe"), ("SYMCC_LOG_FILE", "log")])
    (defaultConfig 7) Var.SELECTIVE_INPUT (by decide)).1

/-- One run keeps every path field set, and keeps the offsets non-empty when
`SYMCC_SELECTIVE_INPUT` is not rejected. -/
theorem loadConfig_keeps_set (env : Env) (c : Config) :
    (c.outputDir.isSome → (loadConfig env c).config.outputDir.isSome) ∧
    (c.inputFile.isSome → (loadConfig env c).config.inputFile.isSome) ∧
    (c.logFile.isSome → (loadConfig env c).config.logFile.isSome) ∧
    (c.aflCoverageMap.isSome → (loadConfig env c).config.aflCoverageMap.isSome) ∧
    (Var.SELECTIVE_INPUT.failureIn env = none →
      c.offsets_to_symbolize.Nonempty →
      (loadConfig env c).config.offsets_to_symbolize.Nonempty) := by
  have key := runVars_rel env
    (fun g g' => (g.outputDir.isSome → g'.outputDir.isSome) ∧
      (g.inputFile.isSome → g'.inputFile.isSome) ∧
      (g.logFile.isSome → g'.logFile.isSome) ∧
      (g.aflCoverageMap.isSome → g'.aflCoverageMap.isSome) ∧
      (Var.SELECTIVE_INPUT.failureIn env = none →
        g.offsets_to_symbolize.Nonempty → g'.offsets_to_symbolize.Nonempty))
    (fun _ => ⟨id, id, id, id, fun _ => id⟩)
    (fun _ _ _ h12 h23 => ⟨fun h => h23.1 (h12.1 h), fun h => h23.2.1 (h12.2.1 h),
      fun h => h23.2.2.1 (h12.2.2.1 h), fun h => h23.2.2.2.1 (h12.2.2.2.1 h),
      fun he h => h23.2.2.2.2 he (h12.2.2.2.2 he h)⟩)
    (by
      intro v g
      cases v <;>
        simp only [Var.load, loadFullyConcrete, loadSelectiveInput, loadOutputDir,
          loadInputFile, loadLogFile, loadPruning, loadAflCoverageMap,
          loadGarbageCollectionThreshold, getenv]
      case SELECTIVE_INPUT =>
        cases hev : env "SYMCC_SELECTIVE_INPUT" with
        | none => exact ⟨id, id, id, id, fun _ => id⟩
        | some r =>
          simp only
          split
          · rename_i hcard
            have hempty : parse_selective_input_option r = ∅ := by
              simpa [Finset.card_eq_zero] using hcard
            have hfail : Var.SELECTIVE_INPUT.failureIn env ≠ none := by
              simp [Var.failureIn, Var.name, hev, Var.failure, hempty]
            exact ⟨id, id, id, id, fun he _ => absurd he hfail⟩
          · rename_i hcard
            have hne : parse_selective_input_option r ≠ ∅ := by
              simpa [Finset.card_eq_zero] using hcard
            exact ⟨id, id, id, id, fun _ _ => Finset.nonempty_iff_ne_empty.mpr hne⟩
      all_goals (repeat' split) <;> simp)
    Var.all ⟨c, none⟩
  rw [loadConfig_eq_runVars]
  exact key

/-- C9, counterexample: a run with `SYMCC_SELECTIVE_INPUT=5,7` leaves a non-empty
offset set; a following run with `SYMCC_SELECTIVE_INPUT=abc` replaces it by the empty
set before throwing `NoValidOffsets`. -/
theorem offsets_cleared_by_failed_run :
    (loadConfig (envOf [("SYMCC_SELECTIVE_INPUT", "5,7")])
      (defaultConfig 0)).config.offsets_to_symbolize = {5, 7} ∧
    (loadConfig (envOf [("SYMCC_SELECTIVE_INPUT", "abc")])
      (loadConfig (envOf [("SYMCC_SELECTIVE_INPUT", "5,7")])
        (defaultConfig 0)).config).config.offsets_to_symbolize = ∅ ∧
    (loadConfig (envOf [("SYMCC_SELECTIVE_INPUT", "abc")])
      (loadConfig (envOf [("SYMCC_SELECTIVE_INPUT", "5,7")])
        (defaultConfig 0)).config).error = some (noValidOffsets "abc".toList) := by
  decide

/-- C9 (amended): for every environment and every starting configuration, after
`loadConfig`, whether it succeeds or fails, every path field (`outputDir`,
`inputFile`, `logFile`, `aflCoverageMap`) that was set is still set; and
`offsets_to_symbolize`, if it was non-empty before, is still non-empty unless the
run fails with `NoValidOffsets`. -/
theorem loadConfig_never_clears (env : Env) (c : Config) :
    (c.outputDir.isSome → (loadConfig env c).config.outputDir.isSome) ∧
    (c.inputFile.isSome → (loadConfig env c).config.inputFile.isSome) ∧
    (c.logFile.isSome → (loadConfig env c).config.logFile.isSome) ∧
    (c.aflCoverageMap.isSome → (loadConfig env c).config.aflCoverageMap.isSome) ∧
    ((∀ e, (loadConfig env c).error = some e → e.kind ≠ .NoValidOffsets) →
      c.offsets_to_symbolize.Nonempty →
      (loadConfig env c).config.offsets_to_symbolize.Nonempty) := by
  obtain ⟨h1, h2, h3, h4, h5⟩ := loadConfig_keeps_set env c
  refine ⟨h1, h2, h3, h4, fun herr hne => ?_⟩
  cases hno : Var.NO_SYMBOLIC_INPUT.failureIn env with
  | some e0 =>
    rw [loadConfig_of_first_flag_rejected env c e0 hno]
    have hu := Var.load_unchanged env Var.NO_SYMBOLIC_INPUT Var.SELECTIVE_INPUT c
      (Or.inl (by decide))
    simp only [Var.unchanged] at hu
    rw [hu.1]
    exact hne
  | none =>
    cases hs : Var.SELECTIVE_INPUT.failureIn env with
    | none => exact h5 hs hne
    | some e =>
      obtain ⟨he, hk⟩ := loadConfig_of_selective_rejected env c e hno hs
      exact absurd hk (herr e he)

/-- C10: no rollback, abort at the first failure: the variables are processed in the
order NO_SYMBOLIC_INPUT, SELECTIVE_INPUT, OUTPUT_DIR, INPUT_FILE, LOG_FILE,
ENABLE_LINEARIZATION, AFL_COVERAGE_MAP, GC_THRESHOLD; when `v` is the first variable in
that order whose parser fails, `loadConfig` fails with the error of `v`, the fields of
every earlier variable hold the value loaded from the environment (and are as before
when that variable is absent), and the fields of every later variable are as before
the call. -/
theorem loadConfig_first_failure (env : Env) (c : Config) (v : Var) (e : RuntimeError)
    (hv : v.failureIn env = some e)
    (hearlier : ∀ w : Var, w.rank < v.rank → w.failureIn env = none) :
    (loadConfig env c).error = some e ∧
    (∀ w : Var, w.rank < v.rank →
      (∀ raw, env w.name = some raw → w.loaded raw (loadConfig env c).config) ∧
      (env w.name = none → w.unchanged c (loadConfig env c).config)) ∧
    (∀ w : Var, v.rank < w.rank → w.unchanged c (loadConfig env c).config) := by
  obtain ⟨pre, post, hall, hpre, hpost⟩ := Var.all_split v
  have hnd : (pre ++ v :: post).Nodup := hall ▸ Var.all_nodup
  have hok : ∀ w ∈ pre, w.failureIn env = none := fun w hw => hearlier w ((hpre w).mp hw)
  obtain ⟨heq, herr⟩ := runVars_first_failure env pre post v c e hnd hok hv
  obtain ⟨-, hloaded⟩ := runVars_ok env pre c (List.nodup_append.mp hnd).1 hok
  rw [loadConfig_eq_runVars, hall, heq]
  refine ⟨herr, ?_, ?_⟩
  · intro w hw
    have hne : w ≠ v := fun h => by rw [h] at hw; exact Nat.lt_irrefl _ hw
    have hstep := Var.load_unchanged env v w (runVars env pre ⟨c, none⟩).config (Or.inl hne)
    refine ⟨fun raw hraw => ?_, fun habs => ?_⟩
    · exact Var.loaded_of_unchanged w raw _ _ hstep (hloaded w ((hpre w).mpr hw) raw hraw)
    · exact Var.unchanged_trans w _ _ _
        (runVars_unchanged env w pre ⟨c, none⟩ (Or.inr habs)) hstep
  · intro w hw
    have hne : w ≠ v := fun h => by rw [h] at hw; exact Nat.lt_irrefl _ hw
    have hnotpre : w ∉ pre := fun h => by
      have := (hpre w).mp h
      omega
    exact Var.unchanged_trans w _ _ _
      (runVars_unchanged env w pre ⟨c, none⟩ (Or.inl hnotpre))
      (Var.load_unchanged env v w _ (Or.inl hne))

theorem loadConfig_first_failure_witness :
    (loadConfig (envOf [("SYMCC_NO_SYMBOLIC_INPUT", "ON"), ("SYMCC_OUTPUT_DIR", "/out"),
      ("SYMCC_ENABLE_LINEARIZATION", "maybe"), ("SYMCC_GC_THRESHOLD", "x")])
      (defaultConfig 9)).error
      = some ⟨.InvalidFlagValue, "Unknown flag value maybe".toList⟩ ∧
    (loadConfig (envOf [("SYMCC_NO_SYMBOLIC_INPUT", "ON"), ("SYMCC_OUTPUT_DIR", "/out"),
      ("SYMCC_ENABLE_LINEARIZATION", "maybe"), ("SYMCC_GC_THRESHOLD", "x")])
      (defaultConfig 9)).config.outputDir = some "/out".toList ∧
    (loadConfig (envOf [("SYMCC_NO_SYMBOLIC_INPUT", "ON"), ("SYMCC_OUTPUT_DIR", "/out"),
      ("SYMCC_ENABLE_LINEARIZATION", "maybe"), ("SYMCC_GC_THRESHOLD", "x")])
      (defaultConfig 9)).config.garbageCollectionThreshold = 9 := by
  have h := loadConfig_first_failure
    (envOf [("SYMCC_NO_SYMBOLIC_INPUT", "ON"), ("SYMCC_OUTPUT_DIR", "/out"),
      ("SYMCC_ENABLE_LINEARIZATION", "maybe"), ("SYMCC_GC_THRESHOLD", "x")])
    (defaultConfig 9) Var.ENABLE_LINEARIZATION
    ⟨.InvalidFlagValue, "Unknown flag value maybe".toList⟩ (by decide) (by decide)
  exact ⟨h.1, (h.2.1 Var.OUTPUT_DIR (by decide)).1 "/out".toList (by decide),
    h.2.2 Var.GC_THRESHOLD (by decide)⟩

/-- C11: idempotence of the loader: for every environment and every starting
configuration, running `loadConfig` a second time under the same environment leaves
the configuration of the first run as it is and ends with the same outcome, success
or the same error, also when the run fails part-way. -/
theorem loadConfig_idempotent (env : Env) (c : Config) :
    (loadConfig env (loadConfig env c).config).config = (loadConfig env c).config ∧
    (loadConfig env (loadConfig env c).config).error = (loadConfig env c).error := by
  have h := runVars_fixed env Var.all c (runVars env Var.all ⟨c, none⟩).config
    Var.all_nodup (fun w _ => w.unchanged_refl _)
  rw [loadConfig_eq_runVars, loadConfig_eq_runVars, h]
  exact ⟨rfl, rfl⟩

/-- C12, counterexample: the `NumericOutOfRange` message states the permitted range
and does not contain the rejected value, and the `InvalidFlagValue` message contains
the lowercased value, not the value as found in the environment. -/
theorem error_message_without_raw_input :
    (loadConfig (envOf [("SYMCC_GC_THRESHOLD", "99999999999999999999")])
      (defaultConfig 0)).error
      = some ⟨.NumericOutOfRange,
          "The GC threshold must be between 0 and 18446744073709551615".toList⟩ ∧
    ¬ ("99999999999999999999".toList
        <:+: "The GC threshold must be between 0 and 18446744073709551615".toList) ∧
    (loadConfig (envOf [("SYMCC_NO_SYMBOLIC_INPUT", "Maybe")]) (defaultConfig 0)).error
      = some ⟨.InvalidFlagValue, "Unknown flag value maybe".toList⟩ ∧
    ¬ ("Maybe".toList <:+: "Unknown flag value maybe".toList) := by
  decide

/-- C12 (amended): when `loadConfig` fails, the failing variable being the first one
whose value is rejected, the message of the error relates to the raw value of that
variable as follows: the `NoValidOffsets` and `InvalidNumericFormat` messages contain
the raw value exactly as found in the environment, the `InvalidFlagValue` message
contains its lowercase form, and the `NumericOutOfRange` message is the fixed text
that states the range from 0 to 18446744073709551615. -/
theorem loadConfig_error_message (env : Env) (c : Config) (v : Var) (e : RuntimeError)
    (raw : Str) (hraw : env v.name = some raw) (hv : v.failure raw = some e)
    (hearlier : ∀ w : Var, w.rank < v.rank → w.failureIn env = none) :
    (loadConfig env c).error = some e ∧
    (e.kind = .NoValidOffsets → raw <:+: e.what) ∧
    (e.kind = .InvalidNumericFormat → raw <:+: e.what) ∧
    (e.kind = .InvalidFlagValue → lowercase raw <:+: e.what) ∧
    (e.kind = .NumericOutOfRange →
      e.what = "The GC threshold must be between 0 and 18446744073709551615".toList) := by
  constructor
  · obtain ⟨pre, post, hall, hpre, -⟩ := Var.all_split v
    have hnd : (pre ++ v :: post).Nodup := hall ▸ Var.all_nodup
    have hin : v.failureIn env = some e := by simp [Var.failureIn, hraw, hv]
    obtain ⟨heq, herr⟩ := runVars_first_failure env pre post v c e hnd
      (fun w hw => hearlier w ((hpre w).mp hw)) hin
    rw [loadConfig_eq_runVars, hall, heq]
    exact herr
  · have hflag : ∀ e2, checkFlagString raw = .error e2 →
        e2.kind = .InvalidFlagValue ∧ lowercase raw <:+: e2.what := by
      intro e2 h
      unfold checkFlagString at h
      simp only at h
      split at h
      · cases h
      · split at h
        · cases h
        · cases h
          exact ⟨rfl, List.suffix_append _ _ |>.isInfix⟩
    have hmax : decimal SIZE_MAX = "18446744073709551615".toList := by decide
    cases v <;> simp only [Var.failure, reduceCtorEq] at hv
    · cases hc : checkFlagString raw with
      | ok b => simp [hc, thrown] at hv
      | error e2 =>
        simp only [hc, thrown, Option.some.injEq] at hv
        subst hv
        obtain ⟨hk, hm⟩ := hflag _ hc
        simp [hk, hm]
    · split at hv
      · cases hv
        refine ⟨fun _ => ⟨_, _, rfl⟩, ?_, ?_, ?_⟩ <;> intro h <;> cases h
      · cases hv
    · cases hc : checkFlagString raw with
      | ok b => simp [hc, thrown] at hv
      | error e2 =>
        simp only [hc, thrown, Option.some.injEq] at hv
        subst hv
        obtain ⟨hk, hm⟩ := hflag _ hc
        simp [hk, hm]
    · unfold gcThreshold at hv
      split at hv
      · cases hv
      · simp only [thrown, Option.some.injEq] at hv
        subst hv
        refine ⟨?_, fun _ => ⟨_, _, rfl⟩, ?_, ?_⟩ <;> intro h <;> cases h
      · simp only [thrown, Option.some.injEq] at hv
        subst hv
        refine ⟨?_, ?_, ?_, fun _ => ?_⟩
        · intro h; cases h
        · intro h; cases h
        · intro h; cases h
        · simp only [hmax]
          rfl

theorem loadConfig_error_message_witness :
    (loadConfig (envOf [("SYMCC_NO_SYMBOLIC_INPUT", "1"), ("SYMCC_GC_THRESHOLD", " +x1")])
      (defaultConfig 0)).error
      = some ⟨.InvalidNumericFormat, "Can't convert  +x1 to an integer".toList⟩ ∧
    " +x1".toList <:+: "Can't convert  +x1 to an integer".toList :=
  have h := loadConfig_error_message
    (envOf [("SYMCC_NO_SYMBOLIC_INPUT", "1"), ("SYMCC_GC_THRESHOLD", " +x1")])
    (defaultConfig 0) Var.GC_THRESHOLD
    ⟨.InvalidNumericFormat, "Can't convert  +x1 to an integer".toList⟩ " +x1".toList
    (by decide) (by decide) (by decide)
  ⟨h.1, h.2.2.1 rfl⟩

/-- C13, counterexample: on "0,1,x" both numbers before the malformed token are
returned, so the result is not the set that holds 0 alone. -/
theorem lenient_prefix_not_singleton :
    parse_selective_input_option "0,1,x".toList ≠ {0} ∧
    1 ∈ parse_selective_input_option "0,1,x".toList := by
  decide

/-- C13 (amended): lenient prefix on trailing garbage: `parse_selective_input_option`
stops at the first malformed token without failing: a well-formed list followed by a
comma and text from which no numeric token can be extracted gives the set of the
listed values; on the input "0,1,x" it returns exactly the set of 0 and 1. -/
theorem parse_selective_input_option_lenient (items : List (Str × Nat)) (garbage : Str)
    (hne : items ≠ [])
    (hws : ∀ item ∈ items, ∀ c ∈ item.1, isspace c = true)
    (hlt : ∀ item ∈ items, item.2 < 2 ^ 64)
    (hgarbage : numericToken garbage = none) :
    parse_selective_input_option (offsetList items ++ ',' :: garbage)
      = (items.map Prod.snd).toFinset ∧
    parse_selective_input_option "0,1,x".toList = {0, 1} := by
  refine ⟨?_, by decide⟩
  rw [parse_offsetList_append items (',' :: garbage) hne hws hlt
    (by simp [comma_not_isdigit])]
  simp only [afterComma]
  rw [parse_of_no_token garbage hgarbage]
  simp

theorem parse_selective_input_option_lenient_witness :
    offsetList [([], 0), ([], 1)] ++ ',' :: "x".toList = "0,1,x".toList ∧
    parse_selective_input_option (offsetList [([], 0), ([], 1)] ++ ',' :: "x".toList)
      = {0, 1} := by
  have h := (parse_selective_input_option_lenient [([], 0), ([], 1)] "x".toList
    (by simp) (by decide) (by decide) (by decide)).1
  refine ⟨by decide, ?_⟩
  rw [h]
  decide

/-- C14: `parse_selective_input_option` never fails: for every input string it
returns a set, and that set holds exactly the numbers scanned before the first
position at which no numeric token can be extracted; a string without a leading
numeric token, such as "abc", gives the empty set. -/
theorem parse_selective_input_option_total (s : Str) :
    ScanResult s (parse_selective_input_option s) ∧
    (∀ result, ScanResult s result → result = parse_selective_input_option s) ∧
    (numericToken s = none → parse_selective_input_option s = ∅) ∧
    parse_selective_input_option "abc".toList = ∅ := by
  refine ⟨?_, ?_, parse_of_no_token s, by decide⟩
  · exact scanResult_parse s.length s rfl
  · intro result hres
    induction hres with
    | stop s h => exact (parse_of_no_token s h).symm
    | token s n rest result h _ ih => rw [parse_of_token s rest n h, ih]

/-- C15: the malformed inputs "0,1,x", "1,,2" and "abc" do not make
`parse_selective_input_option` fail: it returns the numbers scanned before the
malformed part, although its documentation says it throws on malformed input. -/
theorem parse_selective_input_option_malformed :
    parse_selective_input_option "0,1,x".toList = {0, 1} ∧
    parse_selective_input_option "1,,2".toList = {1} ∧
    parse_selective_input_option "abc".toList = ∅ ∧
    (loadConfig (envOf [("SYMCC_SELECTIVE_INPUT", "0,1,x")]) (defaultConfig 0)).error = none ∧
    (loadConfig (envOf [("SYMCC_SELECTIVE_INPUT", "1,,2")]) (defaultConfig 0)).error = none := by
  decide

/-- C16: end-to-end scenario: from the default configuration, with an environment
that holds exactly `SYMCC_SELECTIVE_INPUT=0,1,2` and `SYMCC_GC_THRESHOLD=1000`,
`loadConfig` succeeds with selective symbolization enabled, the offsets 0, 1 and 2,
a GC threshold of 1000, and every other field at its default. -/
theorem loadConfig_end_to_end (gcDefault : Nat) :
    (loadConfig (envOf [("SYMCC_SELECTIVE_INPUT", "0,1,2"), ("SYMCC_GC_THRESHOLD", "1000")])
      (defaultConfig gcDefault)).error = none ∧
    (loadConfig (envOf [("SYMCC_SELECTIVE_INPUT", "0,1,2"), ("SYMCC_GC_THRESHOLD", "1000")])
      (defaultConfig gcDefault)).config
      = { defaultConfig gcDefault with
          selective_symbolization_enabled := true
          offsets_to_symbolize := {0, 1, 2}
          garbageCollectionThreshold := 1000 } := by
  have hparse : parse_selective_input_option "0,1,2".toList = {0, 1, 2} := by decide
  have hrun : loadConfig
      (envOf [("SYMCC_SELECTIVE_INPUT", "0,1,2"), ("SYMCC_GC_THRESHOLD", "1000")])
      (defaultConfig gcDefault)
      = ⟨{ defaultConfig gcDefault with
          selective_symbolization_enabled := true
          offsets_to_symbolize := parse_selective_input_option "0,1,2".toList
          garbageCollectionThreshold := 1000 }, none⟩ := by
    have hcard : ¬ (parse_selective_input_option "0,1,2".toList).card = 0 := by decide
    have hgc : gcThreshold "1000".toList = .ok 1000 := rfl
    have e1 : envOf [("SYMCC_SELECTIVE_INPUT", "0,1,2"), ("SYMCC_GC_THRESHOLD", "1000")]
        "SYMCC_NO_SYMBOLIC_INPUT" = none := by decide
    have e2 : envOf [("SYMCC_SELECTIVE_INPUT", "0,1,2"), ("SYMCC_GC_THRESHOLD", "1000")]
        "SYMCC_SELECTIVE_INPUT" = some "0,1,2".toList := by decide
    have e3 : envOf [("SYMCC_SELECTIVE_INPUT", "0,1,2"), ("SYMCC_GC_THRESHOLD", "1000")]
        "SYMCC_OUTPUT_DIR" = none := by decide
    have e4 : envOf [("SYMCC_SELECTIVE_INPUT", "0,1,2"), ("SYMCC_GC_THRESHOLD", "1000")]
        "SYMCC_INPUT_FILE" = none := by decide
    have e5 : envOf [("SYMCC_SELECTIVE_INPUT", "0,1,2"), ("SYMCC_GC_THRESHOLD", "1000")]
        "SYMCC_LOG_FILE" = none := by decide
    have e6 : envOf [("SYMCC_SELECTIVE_INPUT", "0,1,2"), ("SYMCC_GC_THRESHOLD", "1000")]
        "SYMCC_ENABLE_LINEARIZATION" = none := by decide
    have e7 : envOf [("SYMCC_SELECTIVE_INPUT", "0,1,2"), ("SYMCC_GC_THRESHOLD", "1000")]
        "SYMCC_AFL_COVERAGE_MAP" = none := by decide
    have e8 : envOf [("SYMCC_SELECTIVE_INPUT", "0,1,2"), ("SYMCC_GC_THRESHOLD", "1000")]
        "SYMCC_GC_THRESHOLD" = some "1000".toList := by decide
    simp only [loadConfig, loadFullyConcrete, loadSelectiveInput, loadOutputDir,
      loadInputFile, loadLogFile, loadPruning, loadAflCoverageMap,
      loadGarbageCollectionThreshold, getenv, e1, e2, e3, e4, e5, e6, e7, e8,
      Outcome.andThen, hcard, if_false, hgc]
  rw [hrun, hparse]
  exact ⟨rfl, rfl⟩

/-- C17: the comma is an optional separator and must directly follow a number: a list
of naturals below 2^64 written in decimal and separated only by whitespace gives the
set of all of them ("0 1 2"); and when whitespace stands between a number and the
following comma, scanning stops there and only the numbers before that point are
returned ("0 ,1" gives the set of 0 alone). -/
theorem parse_selective_input_option_comma_optional (items : List (Str × Nat))
    (hws : ∀ item ∈ items, ∀ c ∈ item.1, isspace c = true)
    (hlt : ∀ item ∈ items, item.2 < 2 ^ 64) :
    ((∀ item ∈ items.tail, item.1 ≠ []) →
      parse_selective_input_option (spacedList items) = (items.map Prod.snd).toFinset) ∧
    (∀ ws rest : Str, items ≠ [] → ws ≠ [] → (∀ c ∈ ws, isspace c = true) →
      parse_selective_input_option (offsetList items ++ (ws ++ ',' :: rest))
        = (items.map Prod.snd).toFinset) ∧
    parse_selective_input_option "0 1 2".toList = {0, 1, 2} ∧
    parse_selective_input_option "0 ,1".toList = {0} := by
  refine ⟨parse_spacedList items hws hlt, ?_, by decide, by decide⟩
  intro ws rest hne hwne hwsp
  obtain ⟨d, ds, hd⟩ := List.exists_cons_of_ne_nil hwne
  have hdsp : isspace d = true := hwsp d (by simp [hd])
  have hhead : ∀ c ∈ (ws ++ ',' :: rest).head?, isdigit c = false := by
    simp [hd, isspace_not_isdigit d hdsp]
  rw [parse_offsetList_append items _ hne hws hlt hhead]
  have hafter : afterComma (ws ++ ',' :: rest) = ws ++ ',' :: rest := by
    rw [hd]
    exact afterComma_of_ne d _ (isspace_ne_comma d hdsp)
  rw [hafter, parse_of_no_token _
    (numericToken_no_digit ws rest ',' hwsp (by decide) (by decide) (by decide))]
  simp

theorem parse_selective_input_option_comma_optional_witness :
    spacedList [([], 0), (" ".toList, 1), ("\t ".toList, 2)] = "0 1\t 2".toList ∧
    parse_selective_input_option (spacedList [([], 0), (" ".toList, 1), ("\t ".toList, 2)])
      = {0, 1, 2} ∧
    parse_selective_input_option
      (offsetList [([], 0), ([], 4)] ++ (" ".toList ++ ',' :: "1".toList)) = {0, 4} := by
  have h := parse_selective_input_option_comma_optional
    [([], 0), (" ".toList, 1), ("\t ".toList, 2)] (by decide) (by decide)
  have h2 := (parse_selective_input_option_comma_optional
    [([], 0), ([], 4)] (by decide) (by decide)).2.1 " ".toList "1".toList
    (by simp) (by decide) (by decide)
  refine ⟨by decide, ?_, ?_⟩
  · rw [h.1 (by decide)]; decide
  · rw [h2]; decide

/-- C18: an offset that does not fit in 64 bits ends the scan without being inserted
and without an out-of-range error: for a comma-separated list whose items before the
k-th are below 2^64 and whose k-th item is a numeral of 2^64 or more,
`parse_selective_input_option` returns exactly the set of the first k-1 items; when
that item is the first, the result is empty and `loadConfig` reports
`NoValidOffsets`, not `NumericOutOfRange`. -/
theorem parse_selective_input_option_overflow (pre post : List (Str × Nat)) (ws : Str)
    (big : Nat)
    (hpre : ∀ item ∈ pre, ∀ c ∈ item.1, isspace c = true)
    (hlt : ∀ item ∈ pre, item.2 < 2 ^ 64)
    (hws : ∀ c ∈ ws, isspace c = true) (hbig : 2 ^ 64 ≤ big) :
    parse_selective_input_option (offsetList (pre ++ (ws, big) :: post))
      = (pre.map Prod.snd).toFinset ∧
    (∀ (env : Env) (c : Config),
      env "SYMCC_SELECTIVE_INPUT" = some (offsetList ((ws, big) :: post)) →
      Var.NO_SYMBOLIC_INPUT.failureIn env = none →
      ∃ e, (loadConfig env c).error = some e ∧ e.kind = .NoValidOffsets ∧
        e.kind ≠ .NumericOutOfRange) ∧
    parse_selective_input_option "1,99999999999999999999,2".toList = {1} := by
  have hover : SIZE_MAX < big := by
    simp only [SIZE_MAX]; omega
  have hfirst : parse_selective_input_option (offsetList ((ws, big) :: post)) = ∅ := by
    obtain ⟨tail, htext, htail⟩ := offsetList_cons ws big post
    rw [htext]
    exact parse_of_no_token _ (numericToken_overflow ws tail big hws hover htail)
  refine ⟨?_, ?_, by decide⟩
  · cases pre with
    | nil => simpa using hfirst
    | cons p ps =>
      rw [offsetList_append (ws, big) post (p :: ps) (by simp),
        parse_offsetList_append (p :: ps) _ (by simp) hpre hlt (by simp [comma_not_isdigit])]
      simp only [afterComma]
      rw [hfirst]
      simp
  · intro env c hsel hno
    have hs : Var.SELECTIVE_INPUT.failureIn env
        = some (noValidOffsets (offsetList ((ws, big) :: post))) := by
      simp [Var.failureIn, Var.name, hsel, Var.failure, hfirst]
    obtain ⟨he, hk⟩ := loadConfig_of_selective_rejected env c _ hno hs
    exact ⟨_, he, hk, by rw [hk]; decide⟩

theorem parse_selective_input_option_overflow_witness :
    offsetList ([([], 1)] ++ ([], 99999999999999999999) :: [([], 2)])
      = "1,99999999999999999999,2".toList ∧
    parse_selective_input_option
      (offsetList ([([], 1)] ++ ([], 99999999999999999999) :: [([], 2)])) = {1} := by
  have h := (parse_selective_input_option_overflow [([], 1)] [([], 2)] []
    99999999999999999999 (by decide) (by decide) (by simp) (by decide)).1
  refine ⟨by decide, ?_⟩
  rw [h]
  decide

/-- C19: a negative GC threshold is accepted and wraps modulo 2^64: when
`SYMCC_GC_THRESHOLD` holds a minus sign followed by the decimal numeral of `d`, with
`1 ≤ d ≤ 2^64 - 1`, and no earlier variable fails, `loadConfig` succeeds with
`garbageCollectionThreshold = 2^64 - d`; the out-of-range message meanwhile states a
range from 0 to 18446744073709551615. -/
theorem loadConfig_gc_threshold_negative (env : Env) (c : Config) (d : Nat)
    (hd1 : 1 ≤ d) (hd2 : d ≤ 2 ^ 64 - 1)
    (hgc : env "SYMCC_GC_THRESHOLD" = some ('-' :: decimal d))
    (hearlier : ∀ w : Var, w.rank < Var.GC_THRESHOLD.rank → w.failureIn env = none) :
    (loadConfig env c).error = none ∧
    (loadConfig env c).config.garbageCollectionThreshold = 2 ^ 64 - d ∧
    gcThreshold "18446744073709551616".toList = .error ⟨.NumericOutOfRange,
      "The GC threshold must be between 0 and 18446744073709551615".toList⟩ := by
  have hle : d ≤ SIZE_MAX := hd2
  have hmod : (2 ^ 64 - d) % 2 ^ 64 = 2 ^ 64 - d := Nat.mod_eq_of_lt (by omega)
  have hparse : gcThreshold ('-' :: decimal d) = .ok (2 ^ 64 - d) := by
    simp only [gcThreshold, stoul_neg_decimal d hle, hmod]
  have hv : Var.GC_THRESHOLD.failureIn env = none := by
    simp [Var.failureIn, Var.name, hgc, Var.failure, hparse, thrown]
  have hok : ∀ w ∈ Var.all, w.failureIn env = none := by
    intro w _
    by_cases hw : w.rank < Var.GC_THRESHOLD.rank
    · exact hearlier w hw
    · have : w = Var.GC_THRESHOLD := by
        cases w <;> simp [Var.rank] at hw ⊢
      rw [this]; exact hv
  obtain ⟨h1, h2⟩ := runVars_ok env Var.all c Var.all_nodup hok
  rw [loadConfig_eq_runVars]
  refine ⟨h1, ?_, rfl⟩
  have hl := h2 Var.GC_THRESHOLD (by decide) _ hgc
  simp only [Var.loaded, hparse, Except.ok.injEq] at hl
  exact hl.symm

theorem loadConfig_gc_threshold_negative_witness :
    (loadConfig (envOf [("SYMCC_GC_THRESHOLD", "-1")]) (defaultConfig 0)).error = none ∧
    (loadConfig (envOf [("SYMCC_GC_THRESHOLD", "-1")])
      (defaultConfig 0)).config.garbageCollectionThreshold = 18446744073709551615 :=
  have h := loadConfig_gc_threshold_negative (envOf [("SYMCC_GC_THRESHOLD", "-1")])
    (defaultConfig 0) 1 (by decide) (by decide) (by decide) (by decide)
  ⟨h.1, h.2.1⟩


end SymCC
